import Mathlib

/-!
Verification of the AI-Stock signal generation/filtering core.

This file gives a shallow embedding of the Python sources under
`src/ai_stock` (the indicator library `utils/math_utils.py`, the signal
validation helpers `utils/validation_utils.py`, the filter
`signals/filters/signal_filter.py`, and the generator
`signals/generators/trading_signal_generator.py`) and proves/refutes the
frozen specification claims about them.

Modelling conventions:
* Python `float` values are modelled as exact rationals (`ℚ`).
* Python exceptions are modelled with `Except PyErr`; a function that can
  raise returns `Except PyErr α`.  `math.log` raising `ValueError` on a
  non-positive argument is modelled by `pyLog`, parameterised by an
  arbitrary stand-in `logPos : ℚ → ℚ` for its values on positive inputs
  (the claims never depend on those values).  `math.sqrt`/`statistics.stdev`
  are parameterised the same way by `sqrtPos`.
* Python dicts keyed by symbol are association lists.
* Calls to `time.time()` / `datetime.now().date()` inside one batch call are
  modelled by explicit parameters `now : ℚ` (seconds) and `today : ℤ`
  (a calendar-date ordinal).
* Write-only bookkeeping that never influences control flow or results
  (logging, the `_stats` counters of `SignalFilter`, the market-data cache
  of the generator) is omitted from the state.
-/


/-- Python exception kinds that the embedded code can raise. -/
inductive PyErr where
  | valueError
  | zeroDivisionError
  | statisticsError
  | signalGenerationError
  deriving DecidableEq, Repr

/-- `OrderSide` enum from `core/types.py`. -/
inductive OrderSide where
  | buy
  | sell
  deriving DecidableEq, Repr

/-- `SignalStrength` enum from `core/types.py`. -/
inductive SignalStrength where
  | strong
  | moderate
  | weak
  deriving DecidableEq, Repr

/-- `Kline` dataclass from `core/types.py` (floats as `ℚ`, timestamps in ms). -/
structure Kline where
  open_time : ℤ
  «open» : ℚ
  high : ℚ
  low : ℚ
  close : ℚ
  volume : ℚ
  close_time : ℤ
  symbol : String
  quote_volume : Option ℚ := none
  taker_buy_base_volume : Option ℚ := none
  taker_buy_quote_volume : Option ℚ := none
  ignoreFlag : Bool := false
  deriving DecidableEq, Repr

/-- `MarketData` dataclass from `core/types.py`. -/
structure MarketData where
  klines : List Kline
  symbol : String
  timestamp : Option ℤ := none
  deriving DecidableEq, Repr

/-- `Signal` dataclass from `core/types.py` (timestamp in ms, filled by
`__post_init__`, hence not optional here). -/
structure Signal where
  id : String
  symbol : String
  side : OrderSide
  price : ℚ
  confidence : ℚ
  reason : String
  strength : SignalStrength
  timestamp : ℤ
  stop_loss : Option ℚ := none
  take_profit : Option ℚ := none
  volume : Option ℚ := none
  deriving DecidableEq, Repr

/-- Lookup in a Python dict modelled as an association list, with default
(`d.get(k, default)`). -/
def dictGet (d : List (String × ℚ)) (k : String) (dflt : ℚ) : ℚ :=
  match d.find? (fun p => p.1 = k) with
  | some p => p.2
  | none => dflt

/-- Assignment `d[k] = v` in a Python dict modelled as an association list. -/
def dictSet (d : List (String × ℚ)) (k : String) (v : ℚ) : List (String × ℚ) :=
  match d with
  | [] => [(k, v)]
  | p :: ps => if p.1 = k then (k, v) :: ps else p :: dictSet ps k v

/-- `math.log`: raises `ValueError` on a non-positive argument; on positive
arguments its value is an arbitrary stand-in `logPos` (no claim depends on
those values). -/
def pyLog (logPos : ℚ → ℚ) (x : ℚ) : Except PyErr ℚ :=
  if x ≤ 0 then .error .valueError else .ok (logPos x)

/-- Python true division `a / b`: raises `ZeroDivisionError` when `b = 0`. -/
def pyDiv (a b : ℚ) : Except PyErr ℚ :=
  if b = 0 then .error .zeroDivisionError else .ok (a / b)

namespace MathUtils

/-- `MathUtils.calculate_sma` from `utils/math_utils.py`:
returns `[]` when `len(prices) < period`, otherwise the list of window means
`sum(prices[i-period+1:i+1])/period` for `i` in `range(period-1, len(prices))`
(re-indexed by the window start `j = i - period + 1`). -/
def calculate_sma (prices : List ℚ) (period : ℕ) : List ℚ :=
  if prices.length < period then []
  else (List.range (prices.length - period + 1)).map
    (fun j => ((prices.drop j).take period).sum / period)

/-- `MathUtils.calculate_ema` from `utils/math_utils.py`: seed is the SMA of
the first `period` values, then `ema = α·price + (1-α)·prev` with
`α = 2/(period+1)`. -/
def calculate_ema (prices : List ℚ) (period : ℕ) : List ℚ :=
  if prices.length < period then []
  else
    let alpha : ℚ := 2 / ((period : ℚ) + 1)
    let first : ℚ := ((prices.take period).sum) / period
    let rest := prices.drop period
    first :: (rest.foldl
      (fun (acc : List ℚ × ℚ) p =>
        let e := alpha * p + (1 - alpha) * acc.2
        (acc.1 ++ [e], e))
      ([], first)).1

/-- Price deltas `prices[i+1] - prices[i]` as in `calculate_rsi`. -/
def deltasOf (prices : List ℚ) : List ℚ :=
  List.zipWith (fun b a => b - a) prices.tail prices

/-- Positive parts of the deltas (`gains` in `calculate_rsi`). -/
def gainsOf (ds : List ℚ) : List ℚ := ds.map (fun d => if 0 < d then d else 0)

/-- Negated negative parts of the deltas (`losses` in `calculate_rsi`). -/
def lossesOf (ds : List ℚ) : List ℚ := ds.map (fun d => if d < 0 then -d else 0)

/-- The RSI value computed from a Wilder (avg gain, avg loss) pair:
`100` when `avg_loss == 0`, else `100 - 100/(1 + avg_gain/avg_loss)`. -/
def rsiVal (ag al : ℚ) : ℚ :=
  if al = 0 then 100 else 100 - 100 / (1 + ag / al)

/-- The smoothing loop of `calculate_rsi` (`for i in range(period, len(deltas))`),
updating the Wilder averages and emitting one RSI value per step. -/
def rsiLoop (period : ℕ) : List (ℚ × ℚ) → ℚ → ℚ → List ℚ
  | [], _, _ => []
  | x :: rest, ag, al =>
      let ag' := (ag * ((period : ℚ) - 1) + x.1) / period
      let al' := (al * ((period : ℚ) - 1) + x.2) / period
      (if al' = 0 then (100 : ℚ) else 100 - 100 / (1 + ag' / al')) ::
        rsiLoop period rest ag' al'

/-- `MathUtils.calculate_rsi` from `utils/math_utils.py`:
`[]` when `len(prices) < period + 1`; otherwise the first RSI value from the
plain averages of the first `period` gains/losses, followed by the Wilder
smoothing loop over the remaining gain/loss pairs. -/
def calculate_rsi (prices : List ℚ) (period : ℕ) : List ℚ :=
  if prices.length < period + 1 then []
  else
    let ds := deltasOf prices
    let gains := gainsOf ds
    let losses := lossesOf ds
    let ag0 := (gains.take period).sum / period
    let al0 := (losses.take period).sum / period
    (if al0 = 0 then (100 : ℚ) else 100 - 100 / (1 + ag0 / al0)) ::
      rsiLoop period ((gains.drop period).zip (losses.drop period)) ag0 al0

/-- The sequence of Wilder (avg gain, avg loss) pairs underlying
`calculate_rsi`, one pair per emitted RSI value. -/
def rsiAvgsLoop (period : ℕ) : List (ℚ × ℚ) → ℚ → ℚ → List (ℚ × ℚ)
  | [], _, _ => []
  | x :: rest, ag, al =>
      let ag' := (ag * ((period : ℚ) - 1) + x.1) / period
      let al' := (al * ((period : ℚ) - 1) + x.2) / period
      (ag', al') :: rsiAvgsLoop period rest ag' al'

/-- All Wilder average pairs of `calculate_rsi` (head pair is the seed from
plain averages of the first `period` gains/losses). -/
def rsiAvgs (prices : List ℚ) (period : ℕ) : List (ℚ × ℚ) :=
  let ds := deltasOf prices
  let gains := gainsOf ds
  let losses := lossesOf ds
  let ag0 := (gains.take period).sum / period
  let al0 := (losses.take period).sum / period
  (ag0, al0) :: rsiAvgsLoop period ((gains.drop period).zip (losses.drop period)) ag0 al0
end MathUtils


/-- The example price series from the spec's testable properties. -/
def demoPrices : List ℚ := [10, 10, 10, 10, 10, 11, 12, 13, 14, 15]

/-- Last `n` elements of a list (Python slice `l[-n:]`). -/
def lastN {α : Type} (n : ℕ) (l : List α) : List α := l.drop (l.length - n)

namespace MathUtils

/-- Sequential effectful loop: apply `f` to each element in order, stopping
at the first raised exception (the semantics of a Python `for` loop building
a result list). -/
def mapExcept {α β : Type} (f : α → Except PyErr β) : List α → Except PyErr (List β)
  | [] => .ok []
  | x :: xs =>
    match f x with
    | .error e => .error e
    | .ok y =>
      match mapExcept f xs with
      | .error e => .error e
      | .ok ys => .ok (y :: ys)

/-- `statistics.stdev`: sample standard deviation; raises `StatisticsError`
on fewer than two data points.  The square root of the (nonnegative) sample
variance is represented by the stand-in `sqrtPos`. -/
def stdev (sqrtPos : ℚ → ℚ) (xs : List ℚ) : Except PyErr ℚ :=
  if xs.length < 2 then .error .statisticsError
  else
    let m := xs.sum / xs.length
    .ok (sqrtPos ((xs.map (fun x => (x - m) ^ 2)).sum / ((xs.length : ℚ) - 1)))

/-- `MathUtils.calculate_bollinger_bands` from `utils/math_utils.py`:
middle band is the SMA, upper/lower are `ma ± std_dev·stdev(window)` per
window (`middle_band[j]` is always in range for the windows iterated). -/
def calculate_bollinger_bands (sqrtPos : ℚ → ℚ) (prices : List ℚ)
    (period : ℕ) (std_dev : ℚ) : Except PyErr (List ℚ × List ℚ × List ℚ) :=
  if prices.length < period then .ok ([], [], [])
  else
    let middle := calculate_sma prices period
    match mapExcept (fun j =>
        match stdev sqrtPos ((prices.drop j).take period) with
        | .error e => .error e
        | .ok std =>
          let ma := middle.getD j 0
          .ok (ma + std_dev * std, ma - std_dev * std))
      (List.range (prices.length - period + 1)) with
    | .error e => .error e
    | .ok pairs => .ok (pairs.map Prod.fst, middle, pairs.map Prod.snd)

/-- `MathUtils.calculate_macd` from `utils/math_utils.py` (defaults
`fast=12, slow=26, signal=9`; assumes `fast ≤ slow` as all callers do). -/
def calculate_macd (prices : List ℚ) (fast_period slow_period signal_period : ℕ) :
    List ℚ × List ℚ × List ℚ :=
  if prices.length < slow_period then ([], [], [])
  else
    let fast_ema := calculate_ema prices fast_period
    let slow_ema := calculate_ema prices slow_period
    let start_idx := slow_period - fast_period
    let fast_aligned := fast_ema.drop start_idx
    let macd_line := List.zipWith (fun f s => f - s) fast_aligned slow_ema
    let signal_line := calculate_ema macd_line signal_period
    let signal_start := macd_line.length - signal_line.length
    let histogram := List.zipWith (fun m s => m - s)
      (macd_line.drop signal_start) signal_line
    (macd_line, signal_line, histogram)

/-- `MathUtils.calculate_volatility` from `utils/math_utils.py`:
`[]` when `len(prices) < period + 1`; otherwise rolling sample stdev of the
log returns, annualised by `√252`.  Division by a zero price raises
`ZeroDivisionError` and `log` of a non-positive ratio raises `ValueError`. -/
def calculate_volatility (logPos sqrtPos : ℚ → ℚ) (prices : List ℚ)
    (period : ℕ) : Except PyErr (List ℚ) :=
  if prices.length < period + 1 then .ok []
  else
    match mapExcept (fun i =>
        match pyDiv (prices.getD (i + 1) 0) (prices.getD i 0) with
        | .error e => .error e
        | .ok r => pyLog logPos r)
      (List.range (prices.length - 1)) with
    | .error e => .error e
    | .ok rets =>
      mapExcept (fun j =>
          match stdev sqrtPos ((rets.drop j).take period) with
          | .error e => .error e
          | .ok sd => .ok (sd * sqrtPos 252))
        (List.range (rets.length - period + 1))
end MathUtils

namespace ValidationUtils

/-- `ValidationUtils.validate_symbol`: `re.match('^[A-Z0-9]{3,20}$',
symbol.upper())` on a non-empty string. -/
def validate_symbol (s : String) : Bool :=
  if s = "" then false
  else
    let u := s.data.map Char.toUpper
    decide (3 ≤ u.length ∧ u.length ≤ 20) &&
      u.all (fun c => c.isUpper || c.isDigit)

/-- `ValidationUtils.validate_price`: positive (NaN impossible over `ℚ`). -/
def validate_price (p : ℚ) : Bool := decide (0 < p)

/-- `ValidationUtils.validate_volume`: nonnegative. -/
def validate_volume (v : ℚ) : Bool := decide (0 ≤ v)

/-- `ValidationUtils.validate_confidence`: within `[0,1]`. -/
def validate_confidence (c : ℚ) : Bool := decide (0 ≤ c ∧ c ≤ 1)

/-- `ValidationUtils.validate_timestamp`: seconds-scale stamps are promoted
to milliseconds, then range-checked against year 2100. -/
def validate_timestamp (ts : ℤ) : Bool :=
  let t := if ts < 10000000000 then ts * 1000 else ts
  decide (0 ≤ t ∧ t ≤ 4102444800000)

/-- `ValidationUtils.validate_signal`: the list of validation error messages
(empty means valid).  The `side`/`strength` enum-membership checks are
vacuously true for the embedded enum types.  Message texts are abbreviated
English stand-ins for the source's Chinese strings; only emptiness matters
to callers. -/
def validate_signal (s : Signal) : List String :=
  (if s.id = "" then ["invalid id"] else []) ++
  (if validate_symbol s.symbol then [] else ["invalid symbol"]) ++
  (if validate_price s.price then [] else ["invalid price"]) ++
  (if validate_confidence s.confidence then [] else ["invalid confidence"]) ++
  (if s.reason = "" then ["empty reason"] else []) ++
  (if s.timestamp ≠ 0 && !validate_timestamp s.timestamp
      then ["invalid timestamp"] else []) ++
  (match s.stop_loss with
   | some v => if validate_price v then [] else ["invalid stop_loss"]
   | none => []) ++
  (match s.take_profit with
   | some v => if validate_price v then [] else ["invalid take_profit"]
   | none => []) ++
  (match s.volume with
   | some v => if validate_volume v then [] else ["invalid volume"]
   | none => []) ++
  (match s.side with
   | .buy =>
      (match s.stop_loss with
       | some v => if v ≠ 0 ∧ s.price ≤ v then ["buy stop_loss above price"] else []
       | none => []) ++
      (match s.take_profit with
       | some v => if v ≠ 0 ∧ v ≤ s.price then ["buy take_profit below price"] else []
       | none => [])
   | .sell =>
      (match s.stop_loss with
       | some v => if v ≠ 0 ∧ v ≤ s.price then ["sell stop_loss below price"] else []
       | none => []) ++
      (match s.take_profit with
       | some v => if v ≠ 0 ∧ s.price ≤ v then ["sell take_profit above price"] else []
       | none => []))
end ValidationUtils

namespace SignalFilter

/-- Configuration of `SignalFilter.__init__` (defaults as in the source;
fields never read by any rule are omitted). -/
structure FilterConfig where
  min_confidence : ℚ := 1/2
  max_signals_per_symbol : ℕ := 3
  signal_cooldown : ℚ := 300
  min_volume : ℚ := 1000
  min_price : ℚ := 1/100
  volatility_threshold : ℚ := 1/10
  max_daily_signals : ℕ := 20
  blacklist_symbols : List String := []
  volatility_filter_enabled : Bool := true
  daily_limit_enabled : Bool := true

/-- Mutable state of a `SignalFilter` instance (`_signal_history`,
`_symbol_last_signal`, `_daily_signal_count`, `_last_reset_date`). -/
structure FilterState where
  signal_history : List Signal := []
  symbol_last_signal : List (String × ℚ) := []
  daily_signal_count : ℕ := 0
  last_reset_date : ℤ := 0
  deriving DecidableEq, Repr

/-- The per-batch `context` dict of `filter_signals`. -/
structure FilterCtx where
  market_data : List (String × MarketData)
  signal_history : List Signal
  current_time : ℚ

/-- `context["market_data"].get(symbol)`. -/
def mdGet (m : List (String × MarketData)) (k : String) : Option MarketData :=
  (m.find? (fun p => p.1 = k)).map Prod.snd

/-- A rule outcome: `ok none` = pass, `ok (some reason)` = reject with that
logged reason, `error` = the rule raised. -/
abbrev RuleRes := Except PyErr (Option String)

/-- `SignalFilter._filter_by_confidence`. -/
def filterByConfidence (cfg : FilterConfig) (_st : FilterState)
    (_ctx : FilterCtx) (s : Signal) : RuleRes :=
  if s.confidence < cfg.min_confidence then .ok (some "low_confidence")
  else .ok none

/-- `SignalFilter._filter_by_cooldown`. -/
def filterByCooldown (cfg : FilterConfig) (st : FilterState)
    (ctx : FilterCtx) (s : Signal) : RuleRes :=
  let last := dictGet st.symbol_last_signal s.symbol 0
  if ctx.current_time - last < cfg.signal_cooldown then .ok (some "cooldown")
  else .ok none

/-- `SignalFilter._filter_by_volume` (fail-open without market data or
klines). -/
def filterByVolume (cfg : FilterConfig) (_st : FilterState)
    (ctx : FilterCtx) (s : Signal) : RuleRes :=
  match mdGet ctx.market_data s.symbol with
  | none => .ok none
  | some md =>
    match md.klines.getLast? with
    | none => .ok none
    | some k =>
      if k.volume < cfg.min_volume then .ok (some "low_volume") else .ok none

/-- `SignalFilter._filter_by_price`. -/
def filterByPrice (cfg : FilterConfig) (_st : FilterState)
    (_ctx : FilterCtx) (s : Signal) : RuleRes :=
  if s.price < cfg.min_price then .ok (some "low_price") else .ok none

/-- `SignalFilter._filter_by_volatility`: takes the last 20 closes, fails
open below 10 closes, then calls `calculate_volatility(prices, len(prices))`
and rejects when the latest volatility exceeds the threshold. -/
def filterByVolatility (logPos sqrtPos : ℚ → ℚ) (cfg : FilterConfig)
    (_st : FilterState) (ctx : FilterCtx) (s : Signal) : RuleRes :=
  match mdGet ctx.market_data s.symbol with
  | none => .ok none
  | some md =>
    if md.klines = [] then .ok none
    else
      let prices := (lastN 20 md.klines).map Kline.close
      if prices.length < 10 then .ok none
      else
        match MathUtils.calculate_volatility logPos sqrtPos prices prices.length with
        | .error e => .error e
        | .ok [] => .ok none
        | .ok vol =>
          let current := vol.getLast?.getD 0
          if cfg.volatility_threshold < current then .ok (some "high_volatility")
          else .ok none

/-- `SignalFilter._filter_by_blacklist`. -/
def filterByBlacklist (cfg : FilterConfig) (_st : FilterState)
    (_ctx : FilterCtx) (s : Signal) : RuleRes :=
  if s.symbol ∈ cfg.blacklist_symbols then .ok (some "blacklisted")
  else .ok none

/-- `SignalFilter._are_signals_similar`: same symbol and side, price within
1% relative difference (of the historical price, raising on a zero one) and
confidence within 0.1 absolute difference. -/
def areSignalsSimilar (s1 s2 : Signal) : Except PyErr Bool :=
  if s1.symbol ≠ s2.symbol ∨ s1.side ≠ s2.side then .ok false
  else
    match pyDiv |s1.price - s2.price| s2.price with
    | .error e => .error e
    | .ok pd =>
      if 1/100 < pd then .ok false
      else if 1/10 < |s1.confidence - s2.confidence| then .ok false
      else .ok true

/-- Loop body of `SignalFilter._filter_duplicates` over the recent history
(entries older than 600 s are skipped). -/
def filterDuplicatesLoop (now : ℚ) (s : Signal) :
    List Signal → RuleRes
  | [] => .ok none
  | h :: rest =>
    if 600 < now - (h.timestamp : ℚ) / 1000 then filterDuplicatesLoop now s rest
    else
      match areSignalsSimilar s h with
      | .error e => .error e
      | .ok true => .ok (some "duplicate")
      | .ok false => filterDuplicatesLoop now s rest

/-- `SignalFilter._filter_duplicates`: checks the last 50 context-history
entries. -/
def filterDuplicates (_cfg : FilterConfig) (_st : FilterState)
    (ctx : FilterCtx) (s : Signal) : RuleRes :=
  filterDuplicatesLoop ctx.current_time s (lastN 50 ctx.signal_history)

/-- `SignalFilter._filter_by_daily_limit`. -/
def filterByDailyLimit (cfg : FilterConfig) (st : FilterState)
    (_ctx : FilterCtx) (s : Signal) : RuleRes :=
  if cfg.max_daily_signals ≤ st.daily_signal_count then .ok (some "daily_limit")
  else .ok none

/-- The `FilterRule` dataclass. -/
structure FilterRule where
  name : String
  enabled : Bool
  priority : ℕ
  filter_func : FilterState → FilterCtx → Signal → RuleRes
  description : String

/-- `SignalFilter._initialize_filter_rules`: the eight rules in construction
order, restricted to the enabled ones and sorted ascending by priority
(`sorted` is stable; modelled by insertion sort). -/
def initializeFilterRules (logPos sqrtPos : ℚ → ℚ) (cfg : FilterConfig) :
    List FilterRule :=
  let rules : List FilterRule := [
    ⟨"confidence_filter", true, 1, filterByConfidence cfg, "by confidence"⟩,
    ⟨"cooldown_filter", true, 2, filterByCooldown cfg, "by cooldown"⟩,
    ⟨"volume_filter", true, 3, filterByVolume cfg, "by volume"⟩,
    ⟨"price_filter", true, 4, filterByPrice cfg, "by price"⟩,
    ⟨"volatility_filter", cfg.volatility_filter_enabled, 5,
      filterByVolatility logPos sqrtPos cfg, "by volatility"⟩,
    ⟨"blacklist_filter", true, 6, filterByBlacklist cfg, "blacklist"⟩,
    ⟨"duplicate_filter", true, 7, filterDuplicates cfg, "duplicates"⟩,
    ⟨"daily_limit_filter", cfg.daily_limit_enabled, 8,
      filterByDailyLimit cfg, "daily limit"⟩]
  List.insertionSort (fun a b => a.priority ≤ b.priority)
    (rules.filter (fun r => r.enabled))

/-- `SignalFilter._apply_filter_rules`: first failing rule decides; a rule
that raises is a rejection (with no logged reason).  `none` = accepted,
`some r` = rejected (with reason `r` logged when present). -/
def applyFilterRules : List FilterRule → FilterState → FilterCtx → Signal →
    Option (Option String)
  | [], _, _, _ => none
  | r :: rs, st, ctx, s =>
    match r.filter_func st ctx s with
    | .ok none => applyFilterRules rs st ctx s
    | .ok (some reason) => some (some reason)
    | .error _ => some none

/-- `SignalFilter._validate_signal_basic` (its `except` branch is dead in
the embedding because `validate_signal` is total). -/
def validateSignalBasic (s : Signal) : Bool :=
  (ValidationUtils.validate_signal s).isEmpty

/-- The evolving state of the `for signal in signals` loop of
`filter_signals`: the live filter state, the context's alias of the history
list (`shared` records whether they are still the same Python list; a trim
rebinds `self._signal_history` and breaks the alias), and the accumulated
`filtered_signals`. -/
structure LoopState where
  st : FilterState
  ctxHist : List Signal
  shared : Bool
  accepted : List Signal

/-- `SignalFilter._update_signal_state`: stamp the symbol's last-signal
time, append to the history (trimming to the last 500 past 1000 — which in
the source rebinds the attribute and de-aliases the context's list), and
bump the daily counter. -/
def updateSignalState (now : ℚ) (s : Signal) (L : LoopState) : LoopState :=
  let lastSig := dictSet L.st.symbol_last_signal s.symbol now
  let newHist := L.st.signal_history ++ [s]
  let ctxHist' := if L.shared then newHist else L.ctxHist
  if 1000 < newHist.length then
    { st := { signal_history := lastN 500 newHist,
              symbol_last_signal := lastSig,
              daily_signal_count := L.st.daily_signal_count + 1,
              last_reset_date := L.st.last_reset_date },
      ctxHist := ctxHist', shared := false, accepted := L.accepted }
  else
    { st := { signal_history := newHist,
              symbol_last_signal := lastSig,
              daily_signal_count := L.st.daily_signal_count + 1,
              last_reset_date := L.st.last_reset_date },
      ctxHist := ctxHist', shared := L.shared, accepted := L.accepted }

/-- One iteration of the `for signal in signals` loop of `filter_signals`:
a signal failing basic validation is skipped; an accepted signal is added to
`filtered_signals` and the state updated; a rejected signal (including a
rule exception) leaves everything unchanged. -/
def processOneSignal (rules : List FilterRule)
    (mdMap : List (String × MarketData)) (now : ℚ)
    (L : LoopState) (s : Signal) : LoopState :=
  if !validateSignalBasic s then L
  else
    match applyFilterRules rules L.st ⟨mdMap, L.ctxHist, now⟩ s with
    | none =>
      let L' := updateSignalState now s L
      { L' with accepted := L'.accepted ++ [s] }
    | some _ => L

/-- `SignalFilter._reset_daily_count_if_needed`. -/
def resetDailyCountIfNeeded (today : ℤ) (st : FilterState) : FilterState :=
  if today ≠ st.last_reset_date then
    { st with daily_signal_count := 0, last_reset_date := today }
  else st

/-- Descending-by-confidence ordering used by `_post_process_signals`. -/
def confGe (a b : Signal) : Prop := b.confidence ≤ a.confidence

instance : DecidableRel confGe :=
  fun a b => (inferInstance : Decidable (b.confidence ≤ a.confidence))

instance : IsTotal Signal confGe := ⟨fun a b => le_total b.confidence a.confidence⟩

instance : IsTrans Signal confGe := ⟨fun _ _ _ h1 h2 => le_trans h2 h1⟩

/-- `signals.sort(key=lambda s: s.confidence, reverse=True)`: a stable
descending sort by confidence (insertion sort models Python's stable sort). -/
def sortByConfidenceDesc (l : List Signal) : List Signal :=
  List.insertionSort confGe l

/-- Insert one signal into the `defaultdict(list)` symbol grouping
(appending to an existing key's list, else adding a new key at the end,
matching dict insertion order). -/
def addToGroups (s : Signal) :
    List (String × List Signal) → List (String × List Signal)
  | [] => [(s.symbol, [s])]
  | g :: gs =>
    if g.1 = s.symbol then (g.1, g.2 ++ [s]) :: gs else g :: addToGroups s gs

/-- The symbol grouping of `_post_process_signals`. -/
def groupBySymbol (l : List Signal) : List (String × List Signal) :=
  l.foldl (fun gs s => addToGroups s gs) []

/-- `SignalFilter._post_process_signals`: sort descending by confidence,
group by symbol, keep at most `max_signals_per_symbol` per symbol, flatten,
re-sort descending. -/
def postProcessSignals (cfg : FilterConfig) (signals : List Signal) :
    List Signal :=
  if signals = [] then []
  else
    let sorted := sortByConfidenceDesc signals
    let groups := groupBySymbol sorted
    let final := (groups.map (fun g => g.2.take cfg.max_signals_per_symbol)).flatten
    sortByConfidenceDesc final

/-- `SignalFilter.filter_signals`: empty input short-circuits (before the
daily reset); otherwise reset the daily counter on date rollover, run every
signal through validation plus the rule chain (updating state only on
acceptance), then post-process the accepted list.  Returns the output list
and the final filter state. -/
def filterSignals (logPos sqrtPos : ℚ → ℚ) (cfg : FilterConfig) (now : ℚ)
    (today : ℤ) (st : FilterState) (signals : List Signal)
    (mdMap : List (String × MarketData)) : List Signal × FilterState :=
  if signals = [] then ([], st)
  else
    let st1 := resetDailyCountIfNeeded today st
    let rules := initializeFilterRules logPos sqrtPos cfg
    let L0 : LoopState := ⟨st1, st1.signal_history, true, []⟩
    let LF := signals.foldl (processOneSignal rules mdMap now) L0
    (postProcessSignals cfg LF.accepted, LF.st)
end SignalFilter


/-- A concrete stand-in for the `math.log`/`math.sqrt` value functions, used
when instantiating theorems at concrete inputs (no result depends on it). -/
def constZero : ℚ → ℚ := fun _ => 0

namespace SignalFilter

/-- A concrete signal failing only the confidence rule (used in witnesses). -/
def sigLowConf : Signal :=
  { id := "s0", symbol := "BTCUSDT", side := .buy, price := 100,
    confidence := 0, reason := "r", strength := .weak,
    timestamp := 1600000000000 }

/-- An empty filter context at time 0 (used in witnesses). -/
def ctx0 : FilterCtx := ⟨[], [], 0⟩

/-- The confidence rule of the default-configured filter. -/
def confRule0 : FilterRule :=
  ⟨"confidence_filter", true, 1, filterByConfidence {}, "by confidence"⟩

/-- The default rule chain without its first (confidence) rule. -/
def chainTail0 : List FilterRule :=
  (initializeFilterRules constZero constZero {}).tail

/-- The default rule chain and an initial loop state (used in witnesses). -/
def rules0 : List FilterRule := initializeFilterRules constZero constZero {}

def L00 : LoopState := ⟨{}, [], true, []⟩

/-- A one-per-day filter configuration and a two-signal batch (witnesses). -/
def cfgDaily1 : FilterConfig := { signal_cooldown := 0, max_daily_signals := 1 }

def sigA : Signal :=
  { id := "sA", symbol := "BTCUSDT", side := .buy, price := 100,
    confidence := 1/2, reason := "r", strength := .weak,
    timestamp := 1600000000000 }

def sigB : Signal :=
  { id := "sB", symbol := "BTCUSDT", side := .buy, price := 100,
    confidence := 62/100, reason := "r", strength := .weak,
    timestamp := 1600000000000 }

/-- Invariant of the grouping fold: distinct keys, each group's list is the
filter of the processed prefix by its key, and every processed signal's
symbol is a key. -/
def GroupsInv (pre : List Signal) (gs : List (String × List Signal)) : Prop :=
  gs.Pairwise (fun a b => a.1 ≠ b.1)
  ∧ (∀ g ∈ gs, g.2 = pre.filter (fun t => decide (t.symbol = g.1)))
  ∧ ∀ t ∈ pre, t.symbol ∈ gs.map Prod.fst
end SignalFilter

namespace TradingSignalGenerator

/-- Configuration of `TradingSignalGenerator.__init__` (source defaults). -/
structure GenConfig where
  sma_short_period : ℕ := 10
  sma_long_period : ℕ := 20
  rsi_period : ℕ := 14
  rsi_oversold : ℚ := 30
  rsi_overbought : ℚ := 70
  bb_period : ℕ := 20
  bb_std_dev : ℚ := 2
  min_confidence : ℚ := 1/2
  signal_cooldown : ℚ := 300

/-- Mutable state of a `TradingSignalGenerator` instance
(`_last_signal_time`, `_signal_history`, and the `_stats` dict fields it
updates; the write-only market-data cache is omitted). -/
structure GenState where
  last_signal_time : List (String × ℚ) := []
  signal_history : List Signal := []
  stats_active_signals : ℕ := 0
  stats_total_signals_generated : ℕ := 0
  stats_avg_confidence : ℚ := 0

/-- The `indicators` dict computed by `_calculate_indicators`. -/
structure Indicators where
  sma_short : List ℚ
  sma_long : List ℚ
  rsi : List ℚ
  bb_upper : List ℚ
  bb_middle : List ℚ
  bb_lower : List ℚ
  macd_line : List ℚ
  macd_signal : List ℚ
  macd_histogram : List ℚ
  volatility : List ℚ
  volume_ma : List ℚ

/-- `TradingSignalGenerator._calculate_indicators`: any exception is caught
and re-raised as `SignalGenerationError`.  SMA/RSI/MACD are total; the
Bollinger computation and the volatility computation can raise. -/
def calcIndicators (logPos sqrtPos : ℚ → ℚ) (cfg : GenConfig)
    (prices volumes : List ℚ) : Except PyErr Indicators :=
  let sma_s := MathUtils.calculate_sma prices cfg.sma_short_period
  let sma_l := MathUtils.calculate_sma prices cfg.sma_long_period
  let rsi := MathUtils.calculate_rsi prices cfg.rsi_period
  match MathUtils.calculate_bollinger_bands sqrtPos prices cfg.bb_period cfg.bb_std_dev with
  | .error _ => .error .signalGenerationError
  | .ok bb =>
    let macd := MathUtils.calculate_macd prices 12 26 9
    match MathUtils.calculate_volatility logPos sqrtPos prices 20 with
    | .error _ => .error .signalGenerationError
    | .ok vol =>
      let vma := if volumes = [] then [] else MathUtils.calculate_sma volumes 20
      .ok ⟨sma_s, sma_l, rsi, bb.1, bb.2.1, bb.2.2, macd.1, macd.2.1, macd.2.2,
        vol, vma⟩

/-- `TradingSignalGenerator._determine_signal_strength`. -/
def determineSignalStrength (confidence : ℚ) : SignalStrength :=
  if 4/5 ≤ confidence then .strong
  else if 3/5 ≤ confidence then .moderate
  else .weak

/-- `TradingSignalGenerator._calculate_trend_consistency` (raises on a zero
intermediate price; `len(changes) ≥ 2` holds for all reachable calls, so the
final division is safe). -/
def calculateTrendConsistency (prices : List ℚ) : Except PyErr ℚ :=
  if prices.length < 3 then .ok (1/2)
  else
    match MathUtils.mapExcept (fun i =>
        pyDiv (prices.getD (i + 1) 0 - prices.getD i 0) (prices.getD i 0))
      (List.range (prices.length - 1)) with
    | .error e => .error e
    | .ok changes =>
      let pos := (changes.filter (fun c => decide (0 < c))).length
      let neg := (changes.filter (fun c => decide (c < 0))).length
      .ok ((max pos neg : ℕ) / (changes.length : ℚ))

/-- `TradingSignalGenerator._calculate_ma_confidence`. -/
def calculateMaConfidence (fast_ma slow_ma : ℚ) (prices : List ℚ) :
    Except PyErr ℚ :=
  match pyDiv |fast_ma - slow_ma| slow_ma with
  | .error e => .error e
  | .ok ma_diff =>
    let recent := if 5 ≤ prices.length then lastN 5 prices else prices
    match calculateTrendConsistency recent with
    | .error e => .error e
    | .ok tc => .ok (max (3/10) (min (9/10) (min (4/5) (ma_diff * 10) * tc)))

/-- `TradingSignalGenerator._calculate_rsi_confidence`. -/
def calculateRsiConfidence (cfg : GenConfig) (rsi_value : ℚ)
    (is_oversold : Bool) : Except PyErr ℚ :=
  if is_oversold then
    match pyDiv (cfg.rsi_oversold - rsi_value) cfg.rsi_oversold with
    | .error e => .error e
    | .ok d => .ok (max (3/10) (min (9/10) (1/2 + d * (2/5))))
  else
    match pyDiv (rsi_value - cfg.rsi_overbought) (100 - cfg.rsi_overbought) with
    | .error e => .error e
    | .ok d => .ok (max (3/10) (min (9/10) (1/2 + d * (2/5))))

/-- `TradingSignalGenerator._calculate_bb_confidence`. -/
def calculateBbConfidence (price band middle : ℚ) : Except PyErr ℚ :=
  match pyDiv |price - middle| middle with
  | .error e => .error e
  | .ok d =>
    match pyDiv |band - middle| middle with
    | .error e => .error e
    | .ok bw =>
      let rel := if 0 < bw then d / bw else 0
      .ok (max (3/10) (min (4/5) (2/5 + min (1/2) (rel * (1/2)))))

/-- `TradingSignalGenerator._generate_ma_crossover_signal` (reason strings
abbreviated; `uuid` is the fresh id). -/
def generateMaCrossoverSignal (uuid : String) (now : ℚ) (cfg : GenConfig)
    (symbol : String) (prices : List ℚ) (ind : Indicators) :
    Except PyErr (Option Signal) :=
  if ind.sma_short.length < 2 ∨ ind.sma_long.length < 2 then .ok none
  else
    let cs := ind.sma_short.getLast?.getD 0
    let cl := ind.sma_long.getLast?.getD 0
    let ps := ind.sma_short.getD (ind.sma_short.length - 2) 0
    let pl := ind.sma_long.getD (ind.sma_long.length - 2) 0
    let price := prices.getLast?.getD 0
    if ps ≤ pl ∧ cl < cs then
      match calculateMaConfidence cs cl prices with
      | .error e => .error e
      | .ok conf => .ok (some
          { id := uuid, symbol := symbol, side := .buy, price := price,
            confidence := conf, reason := "ma golden cross",
            strength := determineSignalStrength conf,
            timestamp := ⌊now * 1000⌋ })
    else if pl ≤ ps ∧ cs < cl then
      match calculateMaConfidence cl cs prices with
      | .error e => .error e
      | .ok conf => .ok (some
          { id := uuid, symbol := symbol, side := .sell, price := price,
            confidence := conf, reason := "ma death cross",
            strength := determineSignalStrength conf,
            timestamp := ⌊now * 1000⌋ })
    else .ok none

/-- `TradingSignalGenerator._generate_rsi_signal`. -/
def generateRsiSignal (uuid : String) (now : ℚ) (cfg : GenConfig)
    (symbol : String) (prices : List ℚ) (ind : Indicators) :
    Except PyErr (Option Signal) :=
  if ind.rsi = [] then .ok none
  else
    let cur := ind.rsi.getLast?.getD 0
    let price := prices.getLast?.getD 0
    if cur < cfg.rsi_oversold then
      match calculateRsiConfidence cfg cur true with
      | .error e => .error e
      | .ok conf => .ok (some
          { id := uuid, symbol := symbol, side := .buy, price := price,
            confidence := conf, reason := "rsi oversold",
            strength := determineSignalStrength conf,
            timestamp := ⌊now * 1000⌋ })
    else if cfg.rsi_overbought < cur then
      match calculateRsiConfidence cfg cur false with
      | .error e => .error e
      | .ok conf => .ok (some
          { id := uuid, symbol := symbol, side := .sell, price := price,
            confidence := conf, reason := "rsi overbought",
            strength := determineSignalStrength conf,
            timestamp := ⌊now * 1000⌋ })
    else .ok none

/-- `TradingSignalGenerator._generate_bollinger_signal`. -/
def generateBollingerSignal (uuid : String) (now : ℚ) (symbol : String)
    (prices : List ℚ) (ind : Indicators) : Except PyErr (Option Signal) :=
  if ind.bb_upper = [] ∨ ind.bb_lower = [] ∨ ind.bb_middle = [] then .ok none
  else
    let price := prices.getLast?.getD 0
    let cu := ind.bb_upper.getLast?.getD 0
    let clw := ind.bb_lower.getLast?.getD 0
    let cm := ind.bb_middle.getLast?.getD 0
    if price ≤ clw then
      match calculateBbConfidence price clw cm with
      | .error e => .error e
      | .ok conf => .ok (some
          { id := uuid, symbol := symbol, side := .buy, price := price,
            confidence := conf, reason := "bb lower support",
            strength := determineSignalStrength conf,
            timestamp := ⌊now * 1000⌋ })
    else if cu ≤ price then
      match calculateBbConfidence price cu cm with
      | .error e => .error e
      | .ok conf => .ok (some
          { id := uuid, symbol := symbol, side := .sell, price := price,
            confidence := conf, reason := "bb upper resistance",
            strength := determineSignalStrength conf,
            timestamp := ⌊now * 1000⌋ })
    else .ok none

/-- `TradingSignalGenerator._generate_volume_signal`. -/
def generateVolumeSignal (uuid : String) (now : ℚ) (symbol : String)
    (prices volumes : List ℚ) : Except PyErr (Option Signal) :=
  if volumes.length < 20 then .ok none
  else
    let cv := volumes.getLast?.getD 0
    let av := (lastN 20 volumes).sum / 20
    let price := prices.getLast?.getD 0
    let prev := if 1 < prices.length then prices.getD (prices.length - 2) 0
      else price
    if av * 2 < cv ∧ prev * (102/100) < price then
      match pyDiv cv av with
      | .error e => .error e
      | .ok ratio => .ok (some
          { id := uuid, symbol := symbol, side := .buy, price := price,
            confidence := min (4/5) (ratio * (1/5)),
            reason := "volume surge up",
            strength := determineSignalStrength (min (4/5) (ratio * (1/5))),
            timestamp := ⌊now * 1000⌋ })
    else if av * 2 < cv ∧ price < prev * (98/100) then
      match pyDiv cv av with
      | .error e => .error e
      | .ok ratio => .ok (some
          { id := uuid, symbol := symbol, side := .sell, price := price,
            confidence := min (4/5) (ratio * (1/5)),
            reason := "volume surge down",
            strength := determineSignalStrength (min (4/5) (ratio * (1/5))),
            timestamp := ⌊now * 1000⌋ })
    else .ok none

/-- Loop body of `TradingSignalGenerator._is_duplicate_signal`: entries
older than 300 s are skipped; otherwise same symbol and side alone makes a
duplicate (no price or confidence comparison in the source). -/
def isDuplicateLoop (now : ℚ) (s : Signal) : List Signal → Bool
  | [] => false
  | h :: rest =>
    if 300 < now - (h.timestamp : ℚ) / 1000 then isDuplicateLoop now s rest
    else if h.symbol = s.symbol ∧ h.side = s.side then true
    else isDuplicateLoop now s rest

/-- `TradingSignalGenerator._is_duplicate_signal`: checks the last 10
history entries. -/
def isDuplicateSignal (now : ℚ) (st : GenState) (s : Signal) : Bool :=
  isDuplicateLoop now s (lastN 10 st.signal_history)

/-- `TradingSignalGenerator.filter_signals`: keep signals that validate,
meet the minimum confidence and are not duplicates. -/
def genFilterSignals (cfg : GenConfig) (now : ℚ) (st : GenState)
    (signals : List Signal) : List Signal :=
  signals.filter (fun s =>
    (ValidationUtils.validate_signal s).isEmpty
    && !decide (s.confidence < cfg.min_confidence)
    && !isDuplicateSignal now st s)

/-- `TradingSignalGenerator._update_stats`: stamp per-symbol last-signal
times, append to history (trim to last 500 past 1000), recount active
signals and totals; computing `avg_confidence` divides by the batch length
and raises `ZeroDivisionError` on an empty batch once the running total is
positive. -/
def updateStats (now : ℚ) (signals : List Signal) (st : GenState) :
    Except PyErr GenState :=
  let st1 := signals.foldl (fun acc s =>
    let hist := acc.signal_history ++ [s]
    { acc with
      last_signal_time := dictSet acc.last_signal_time s.symbol now,
      signal_history := if 1000 < hist.length then lastN 500 hist else hist }) st
  let active := (st1.signal_history.filter
    (fun s => decide (now - (s.timestamp : ℚ) / 1000 < 3600))).length
  let total := st1.stats_total_signals_generated + signals.length
  if 0 < total then
    if signals.length = 0 then .error .zeroDivisionError
    else .ok { st1 with
      stats_active_signals := active,
      stats_total_signals_generated := total,
      stats_avg_confidence := (signals.map Signal.confidence).sum / signals.length }
  else .ok { st1 with
    stats_active_signals := active,
    stats_total_signals_generated := total }

/-- `TradingSignalGenerator.generate_signals`: empty/insufficient data and
the cooldown return an empty list, but any exception raised along the way is
caught and re-raised as `SignalGenerationError` (`raise ... from e`), so it
propagates to the caller.  Returns the filtered signals and the updated
state.  `uuid` supplies the fresh ids; the `on_signal_generated` callback is
`None` (constructor default). -/
def generateSignals (logPos sqrtPos : ℚ → ℚ) (uuid : ℕ → String)
    (cfg : GenConfig) (now : ℚ) (st : GenState) (md : MarketData) :
    Except PyErr (List Signal × GenState) :=
  if md.klines = [] then .ok ([], st)
  else
    let symbol := md.symbol
    if now - dictGet st.last_signal_time symbol 0 < cfg.signal_cooldown then
      .ok ([], st)
    else
      let prices := md.klines.map Kline.close
      let volumes := md.klines.map Kline.volume
      if prices.length < max cfg.sma_long_period (max cfg.rsi_period cfg.bb_period)
      then .ok ([], st)
      else
        match calcIndicators logPos sqrtPos cfg prices volumes with
        | .error _ => .error .signalGenerationError
        | .ok ind =>
          match generateMaCrossoverSignal (uuid 0) now cfg symbol prices ind with
          | .error _ => .error .signalGenerationError
          | .ok ma =>
            match generateRsiSignal (uuid 1) now cfg symbol prices ind with
            | .error _ => .error .signalGenerationError
            | .ok rsio =>
              match generateBollingerSignal (uuid 2) now symbol prices ind with
              | .error _ => .error .signalGenerationError
              | .ok bb =>
                match generateVolumeSignal (uuid 3) now symbol prices volumes with
                | .error _ => .error .signalGenerationError
                | .ok vols =>
                  let signals := ma.toList ++ rsio.toList ++ bb.toList ++ vols.toList
                  let filtered := genFilterSignals cfg now st signals
                  match updateStats now filtered st with
                  | .error _ => .error .signalGenerationError
                  | .ok st2 => .ok (filtered, st2)
end TradingSignalGenerator


/-- A constant uuid supply for concrete instantiations. -/
def uuid0 : ℕ → String := fun _ => "u"

/-- A flat kline with the given close price. -/
def mkKline (c : ℚ) : Kline :=
  { open_time := 0, «open» := c, high := c, low := c, close := c, volume := 1,
    close_time := 1, symbol := "BTCUSDT" }

/-- 21 bars whose final close is `0`: enough data to pass the length check,
and `log(0/1)` raises inside `calculate_volatility`. -/
def badMd : MarketData :=
  { klines := List.replicate 20 (mkKline 1) ++ [mkKline 0], symbol := "BTCUSDT" }

/-- Market data with too few bars for the default indicator lookbacks. -/
def shortMd : MarketData :=
  { klines := List.replicate 5 (mkKline 1), symbol := "BTCUSDT" }

/-- Modelled from the claim's words (spec §4.2 item 7): a candidate is a
duplicate when a recent (≤ 300 s) history entry among the last 10 has the
same symbol and side AND a price within 1% relative difference AND a
confidence within 0.1 absolute difference.  Stated for comparison with the
source's `_is_duplicate_signal`, which it mischaracterises. -/
def specDuplicateSuppression (now : ℚ) (st : TradingSignalGenerator.GenState)
    (s : Signal) : Prop :=
  ∃ h ∈ lastN 10 st.signal_history,
    now - (h.timestamp : ℚ) / 1000 ≤ 300
    ∧ h.symbol = s.symbol ∧ h.side = s.side
    ∧ |s.price - h.price| / h.price ≤ 1/100
    ∧ |s.confidence - h.confidence| ≤ 1/10

/-- A history entry and a candidate with the same symbol/side but a 100%
price difference and a 0.7 confidence difference. -/
def histC8 : Signal :=
  { id := "h1", symbol := "BTCUSDT", side := .buy, price := 100,
    confidence := 9/10, reason := "r", strength := .weak,
    timestamp := 1600000000000 }

def candC8 : Signal :=
  { id := "c1", symbol := "BTCUSDT", side := .buy, price := 200,
    confidence := 2/10, reason := "r", strength := .weak,
    timestamp := 1600000000000 }

def stC8 : TradingSignalGenerator.GenState := { signal_history := [histC8] }

namespace SignalFilter

/-- Zero cooldown, one signal kept per symbol (concrete scenario config). -/
def cfgCap1 : FilterConfig := { signal_cooldown := 0, max_signals_per_symbol := 1 }

end SignalFilter


namespace MathUtils

theorem rsiLoop_eq_map (period : ℕ) (gl : List (ℚ × ℚ)) (ag al : ℚ) :
    rsiLoop period gl ag al =
      (rsiAvgsLoop period gl ag al).map (fun x => rsiVal x.1 x.2) := by
  induction gl generalizing ag al with
  | nil => rfl
  | cons x rest ih => simp [rsiLoop, rsiAvgsLoop, rsiVal, ih]

theorem rsiAvgsLoop_nonneg (period : ℕ) (hp : 1 ≤ period)
    (gl : List (ℚ × ℚ)) (ag al : ℚ) (hag : 0 ≤ ag) (hal : 0 ≤ al)
    (hgl : ∀ x ∈ gl, 0 ≤ x.1 ∧ 0 ≤ x.2) :
    ∀ y ∈ rsiAvgsLoop period gl ag al, 0 ≤ y.1 ∧ 0 ≤ y.2 := by
  induction gl generalizing ag al with
  | nil => intro y hy; simp [rsiAvgsLoop] at hy
  | cons x rest ih =>
    intro y hy
    have hx := hgl x (List.mem_cons_self _ _)
    have hperiod : (0 : ℚ) ≤ (period : ℚ) - 1 := by
      have : (1 : ℚ) ≤ (period : ℚ) := by exact_mod_cast hp
      linarith
    have hpos : (0 : ℚ) < (period : ℚ) := by
      have : (1 : ℚ) ≤ (period : ℚ) := by exact_mod_cast hp
      linarith
    have hag' : 0 ≤ (ag * ((period : ℚ) - 1) + x.1) / period :=
      div_nonneg (by nlinarith [hx.1]) (le_of_lt hpos)
    have hal' : 0 ≤ (al * ((period : ℚ) - 1) + x.2) / period :=
      div_nonneg (by nlinarith [hx.2]) (le_of_lt hpos)
    simp only [rsiAvgsLoop, List.mem_cons] at hy
    rcases hy with rfl | hy
    · exact ⟨hag', hal'⟩
    · exact ih _ _ hag' hal' (fun z hz => hgl z (List.mem_cons_of_mem _ hz)) y hy

theorem rsiVal_bounds (ag al : ℚ) (hag : 0 ≤ ag) (hal : 0 ≤ al) :
    0 ≤ rsiVal ag al ∧ rsiVal ag al ≤ 100 ∧ (rsiVal ag al = 100 ↔ al = 0) := by
  unfold rsiVal
  split
  · rename_i h
    exact ⟨by norm_num, by norm_num, by simp [h]⟩
  · rename_i h
    have halpos : 0 < al := lt_of_le_of_ne hal (Ne.symm h)
    have hrs : 0 ≤ ag / al := div_nonneg hag (le_of_lt halpos)
    have hden : (0 : ℚ) < 1 + ag / al := by linarith
    have ht0 : 0 < 100 / (1 + ag / al) := div_pos (by norm_num) hden
    have ht100 : 100 / (1 + ag / al) ≤ 100 := by
      rw [div_le_iff hden]; nlinarith
    refine ⟨by linarith, by linarith, ?_⟩
    constructor
    · intro habs; exfalso; linarith
    · intro habs; exact absurd habs h

theorem rsiAvgs_nonneg (prices : List ℚ) (period : ℕ) (hp : 1 ≤ period) :
    ∀ y ∈ rsiAvgs prices period, 0 ≤ y.1 ∧ 0 ≤ y.2 := by
  have hpos : (0 : ℚ) < (period : ℚ) := by
    have : (1 : ℚ) ≤ (period : ℚ) := by exact_mod_cast hp
    linarith
  have hgains : ∀ d ∈ gainsOf (deltasOf prices), 0 ≤ d := by
    intro d hd
    simp only [gainsOf, List.mem_map] at hd
    obtain ⟨a, _, rfl⟩ := hd
    split <;> simp_all <;> linarith
  have hlosses : ∀ d ∈ lossesOf (deltasOf prices), 0 ≤ d := by
    intro d hd
    simp only [lossesOf, List.mem_map] at hd
    obtain ⟨a, _, rfl⟩ := hd
    split <;> simp_all <;> linarith
  have hag0 : 0 ≤ ((gainsOf (deltasOf prices)).take period).sum / period :=
    div_nonneg
      (List.sum_nonneg (fun d hd => hgains d (List.mem_of_mem_take hd)))
      (le_of_lt hpos)
  have hal0 : 0 ≤ ((lossesOf (deltasOf prices)).take period).sum / period :=
    div_nonneg
      (List.sum_nonneg (fun d hd => hlosses d (List.mem_of_mem_take hd)))
      (le_of_lt hpos)
  intro y hy
  simp only [rsiAvgs, List.mem_cons] at hy
  rcases hy with rfl | hy
  · exact ⟨hag0, hal0⟩
  · refine rsiAvgsLoop_nonneg period hp _ _ _ hag0 hal0 ?_ y hy
    intro x hx
    have := List.of_mem_zip hx
    exact ⟨hgains _ (List.mem_of_mem_drop this.1),
           hlosses _ (List.mem_of_mem_drop this.2)⟩

theorem calculate_rsi_eq_map (prices : List ℚ) (period : ℕ)
    (hlen : period + 1 ≤ prices.length) :
    calculate_rsi prices period =
      (rsiAvgs prices period).map (fun x => rsiVal x.1 x.2) := by
  have h : ¬ prices.length < period + 1 := by omega
  simp only [calculate_rsi, rsiAvgs, if_neg h, List.map_cons, rsiVal,
    rsiLoop_eq_map]

/-- Length of `calculate_sma`: `max 0 (len - period + 1)` (stated over `ℤ`). -/
theorem length_calculate_sma (prices : List ℚ) (period : ℕ) :
    ((MathUtils.calculate_sma prices period).length : ℤ) =
      max 0 ((prices.length : ℤ) - period + 1) := by
  unfold MathUtils.calculate_sma
  split
  · rename_i h
    simp only [List.length_nil, Nat.cast_zero]
    omega
  · rename_i h
    push_neg at h
    simp only [List.length_map, List.length_range]
    omega
end MathUtils


/-- C3: for every series `s` and period `p ≥ 1`, `sma(s,p)` has length
`max 0 (len(s)-p+1)` and its `i`-th element is the mean of `s[i..i+p-1]`;
on the spec's example series with `p = 5` the first output is `10` and the
last is `13`. -/
theorem sma_length_window_mean (s : List ℚ) (p : ℕ) (hp : 1 ≤ p) :
    ((MathUtils.calculate_sma s p).length : ℤ) = max 0 ((s.length : ℤ) - p + 1)
    ∧ (∀ i (h : i < (MathUtils.calculate_sma s p).length),
        (MathUtils.calculate_sma s p).get ⟨i, h⟩ = ((s.drop i).take p).sum / p)
    ∧ (MathUtils.calculate_sma demoPrices 5).head? = some 10
    ∧ (MathUtils.calculate_sma demoPrices 5).getLast? = some 13 := by
  refine ⟨MathUtils.length_calculate_sma s p, ?_,
    by norm_num [MathUtils.calculate_sma, demoPrices, List.range_succ],
    by norm_num [MathUtils.calculate_sma, demoPrices, List.range_succ]⟩
  intro i h
  have hc : ¬ s.length < p := by
    by_contra hc
    rw [MathUtils.calculate_sma, if_pos hc] at h
    simp at h
  simp [MathUtils.calculate_sma, hc]

/-- Witness for `sma_length_window_mean` at `s = demoPrices`, `p = 5`. -/
theorem sma_length_window_mean_witness :
    ((MathUtils.calculate_sma demoPrices 5).length : ℤ) =
        max 0 ((demoPrices.length : ℤ) - 5 + 1)
    ∧ (∀ i (h : i < (MathUtils.calculate_sma demoPrices 5).length),
        (MathUtils.calculate_sma demoPrices 5).get ⟨i, h⟩ =
          ((demoPrices.drop i).take 5).sum / 5)
    ∧ (MathUtils.calculate_sma demoPrices 5).head? = some 10
    ∧ (MathUtils.calculate_sma demoPrices 5).getLast? = some 13 :=
  sma_length_window_mean demoPrices 5 (by norm_num)

/-- C9: for positive price series of length ≥ period+1 (period ≥ 1), every
RSI value is the image of its Wilder (avg gain, avg loss) pair, lies in
`[0,100]`, equals `100` exactly when the smoothed average loss is `0`, and
otherwise equals `100 - 100/(1 + avg_gain/avg_loss)`. -/
theorem rsi_range_and_formula (prices : List ℚ) (period : ℕ)
    (hp : 1 ≤ period) (hlen : period + 1 ≤ prices.length)
    (hpos : ∀ x ∈ prices, 0 < x) :
    MathUtils.calculate_rsi prices period =
      (MathUtils.rsiAvgs prices period).map (fun x => MathUtils.rsiVal x.1 x.2)
    ∧ ∀ a ∈ MathUtils.rsiAvgs prices period,
        (0 ≤ MathUtils.rsiVal a.1 a.2 ∧ MathUtils.rsiVal a.1 a.2 ≤ 100)
        ∧ (MathUtils.rsiVal a.1 a.2 = 100 ↔ a.2 = 0)
        ∧ (a.2 ≠ 0 →
            MathUtils.rsiVal a.1 a.2 = 100 - 100 / (1 + a.1 / a.2)) := by
  refine ⟨MathUtils.calculate_rsi_eq_map prices period hlen, ?_⟩
  intro a ha
  obtain ⟨hag, hal⟩ := MathUtils.rsiAvgs_nonneg prices period hp a ha
  obtain ⟨h0, h100, hiff⟩ := MathUtils.rsiVal_bounds a.1 a.2 hag hal
  refine ⟨⟨h0, h100⟩, hiff, ?_⟩
  intro hne
  simp [MathUtils.rsiVal, hne]

/-- Witness for `rsi_range_and_formula` at `prices = [1,2,1,3]`, `period = 2`. -/
theorem rsi_range_and_formula_witness :
    ((1 : ℕ) ≤ 2 ∧ 2 + 1 ≤ ([1, 2, 1, 3] : List ℚ).length ∧
      ∀ x ∈ ([1, 2, 1, 3] : List ℚ), 0 < x)
    ∧ (MathUtils.calculate_rsi [1, 2, 1, 3] 2 =
        (MathUtils.rsiAvgs [1, 2, 1, 3] 2).map
          (fun x => MathUtils.rsiVal x.1 x.2)
      ∧ ∀ a ∈ MathUtils.rsiAvgs [1, 2, 1, 3] 2,
          (0 ≤ MathUtils.rsiVal a.1 a.2 ∧ MathUtils.rsiVal a.1 a.2 ≤ 100)
          ∧ (MathUtils.rsiVal a.1 a.2 = 100 ↔ a.2 = 0)
          ∧ (a.2 ≠ 0 →
              MathUtils.rsiVal a.1 a.2 = 100 - 100 / (1 + a.1 / a.2))) :=
  ⟨⟨by norm_num, by norm_num, by decide⟩,
    rsi_range_and_formula [1, 2, 1, 3] 2 (by norm_num) (by norm_num) (by decide)⟩

namespace SignalFilter

/-- C2 (code bug): the volatility rule always accepts.  It calls
`calculate_volatility(prices, len(prices))`, whose guard
`len(prices) < period + 1` is then always true, so the volatility list is
always empty and the rejection branch is unreachable — even with abundant
data and arbitrarily high volatility. -/
theorem volatility_rule_always_accepts (logPos sqrtPos : ℚ → ℚ)
    (cfg : FilterConfig) (st : FilterState) (ctx : FilterCtx) (s : Signal) :
    filterByVolatility logPos sqrtPos cfg st ctx s = .ok none := by
  unfold filterByVolatility
  cases mdGet ctx.market_data s.symbol with
  | none => rfl
  | some md =>
    simp only []
    split
    · rfl
    · split
      · rfl
      · rw [MathUtils.calculate_volatility, if_pos (Nat.lt_succ_self _)]

theorem applyFilterRules_append_reject (st : FilterState) (ctx : FilterCtx)
    (s : Signal) (pre : List FilterRule) (r : FilterRule) (o : Option String)
    (hpre : ∀ p ∈ pre, p.filter_func st ctx s = .ok none)
    (hr : applyFilterRules [r] st ctx s = some o) :
    ∀ post : List FilterRule,
      applyFilterRules (pre ++ r :: post) st ctx s = some o := by
  induction pre with
  | nil =>
    intro post
    simp only [List.nil_append]
    unfold applyFilterRules at hr ⊢
    cases hres : r.filter_func st ctx s with
    | ok v =>
      cases v with
      | none => rw [hres] at hr; simp [applyFilterRules] at hr
      | some reason => rw [hres] at hr; exact hr
    | error e => rw [hres] at hr; exact hr
  | cons p ps ih =>
    intro post
    have hp := hpre p (List.mem_cons_self _ _)
    simp only [List.cons_append]
    unfold applyFilterRules
    rw [hp]
    exact ih (fun q hq => hpre q (List.mem_cons_of_mem _ hq)) post

/-- C4: the enabled rules of the filter are exactly (a sublist of)
`confidence, cooldown, volume, price, volatility, blacklist, duplicate,
daily_limit` in ascending priority order, and whenever the rule chain splits
as `pre ++ r :: post` with every rule of `pre` passing and `r` rejecting
(outcome `o`, a reason or an exception), the whole chain rejects with `o`
and the result is independent of the rules after `r` (no later rule is
evaluated). -/
theorem rule_chain_order_and_short_circuit (logPos sqrtPos : ℚ → ℚ)
    (cfg : FilterConfig) (st : FilterState) (ctx : FilterCtx) (s : Signal)
    (pre post : List FilterRule) (r : FilterRule) (o : Option String)
    (hsplit : initializeFilterRules logPos sqrtPos cfg = pre ++ r :: post)
    (hpre : ∀ p ∈ pre, p.filter_func st ctx s = .ok none)
    (hr : applyFilterRules [r] st ctx s = some o) :
    ((initializeFilterRules logPos sqrtPos cfg).map FilterRule.name =
      ["confidence_filter", "cooldown_filter", "volume_filter", "price_filter"]
        ++ (if cfg.volatility_filter_enabled then ["volatility_filter"] else [])
        ++ ["blacklist_filter", "duplicate_filter"]
        ++ (if cfg.daily_limit_enabled then ["daily_limit_filter"] else []))
    ∧ applyFilterRules (initializeFilterRules logPos sqrtPos cfg) st ctx s = some o
    ∧ ∀ post' : List FilterRule,
        applyFilterRules (pre ++ r :: post') st ctx s = some o := by
  refine ⟨?_, ?_, applyFilterRules_append_reject st ctx s pre r o hpre hr⟩
  · obtain ⟨mc, ms, sc, mv, mp, vt, md, bl, ve, de⟩ := cfg
    cases ve <;> cases de <;> rfl
  · rw [hsplit]
    exact applyFilterRules_append_reject st ctx s pre r o hpre hr post

/-- Witness for `rule_chain_order_and_short_circuit` on the default
configuration with a zero-confidence signal rejected by the first rule. -/
theorem rule_chain_order_and_short_circuit_witness :
    ((initializeFilterRules constZero constZero {}).map FilterRule.name =
      ["confidence_filter", "cooldown_filter", "volume_filter", "price_filter",
       "volatility_filter", "blacklist_filter", "duplicate_filter",
       "daily_limit_filter"])
    ∧ applyFilterRules (initializeFilterRules constZero constZero {}) {} ctx0
        sigLowConf = some (some "low_confidence")
    ∧ applyFilterRules ([] ++ confRule0 :: []) {} ctx0 sigLowConf =
        some (some "low_confidence") := by
  have h := rule_chain_order_and_short_circuit constZero constZero {} {} ctx0
    sigLowConf [] chainTail0 confRule0 (some "low_confidence")
    (by rfl)
    (by simp)
    (by norm_num [applyFilterRules, confRule0, filterByConfidence, sigLowConf])
  exact ⟨h.1, h.2.1, h.2.2 []⟩

/-- C5: within one `filter_signals` loop iteration, the per-symbol
last-accepted map, the history buffer and the daily counter change only when
the signal passes basic validation and the entire rule chain; a validation
failure, a rule rejection or a rule exception leaves the whole loop state
unchanged, while a pass performs exactly the `_update_signal_state`
effects. -/
theorem state_updated_only_on_pass (rules : List FilterRule)
    (mdMap : List (String × MarketData)) (now : ℚ) (L : LoopState) (s : Signal) :
    (validateSignalBasic s = false → processOneSignal rules mdMap now L s = L)
    ∧ (∀ o, applyFilterRules rules L.st ⟨mdMap, L.ctxHist, now⟩ s = some o →
        processOneSignal rules mdMap now L s = L)
    ∧ (validateSignalBasic s = true →
       applyFilterRules rules L.st ⟨mdMap, L.ctxHist, now⟩ s = none →
        (processOneSignal rules mdMap now L s).st.daily_signal_count
            = L.st.daily_signal_count + 1
        ∧ (processOneSignal rules mdMap now L s).st.symbol_last_signal
            = dictSet L.st.symbol_last_signal s.symbol now
        ∧ (processOneSignal rules mdMap now L s).st.signal_history
            = (if 1000 < (L.st.signal_history ++ [s]).length
               then lastN 500 (L.st.signal_history ++ [s])
               else L.st.signal_history ++ [s])
        ∧ (processOneSignal rules mdMap now L s).accepted = L.accepted ++ [s]) := by
  refine ⟨?_, ?_, ?_⟩
  · intro h
    simp [processOneSignal, h]
  · intro o ho
    by_cases hv : validateSignalBasic s
    · simp [processOneSignal, hv, ho]
    · simp [processOneSignal, Bool.of_not_eq_true hv]
  · intro hv ho
    simp only [processOneSignal, hv, Bool.not_true, Bool.false_eq_true,
      if_false, ho, updateSignalState]
    split <;> simp

/-- Witness for `state_updated_only_on_pass`: a zero-confidence signal is
rejected by the chain and leaves the loop state untouched. -/
theorem state_updated_only_on_pass_witness :
    processOneSignal rules0 [] 0 L00 sigLowConf = L00 :=
  (state_updated_only_on_pass rules0 [] 0 L00 sigLowConf).2.1
    (some "low_confidence")
    (by norm_num [rules0, initializeFilterRules, applyFilterRules,
      filterByConfidence, List.insertionSort, List.orderedInsert, sigLowConf,
      L00])

theorem processOneSignal_not_pass (rules : List FilterRule)
    (mdMap : List (String × MarketData)) (now : ℚ) (L : LoopState) (s : Signal)
    (h : validateSignalBasic s = false ∨
      applyFilterRules rules L.st ⟨mdMap, L.ctxHist, now⟩ s ≠ none) :
    processOneSignal rules mdMap now L s = L := by
  rcases h with h | h
  · simp [processOneSignal, h]
  · by_cases hv : validateSignalBasic s
    · cases ho : applyFilterRules rules L.st ⟨mdMap, L.ctxHist, now⟩ s with
      | none => exact absurd ho h
      | some o => simp [processOneSignal, hv, ho]
    · simp [processOneSignal, Bool.of_not_eq_true hv]

theorem processOneSignal_pass (rules : List FilterRule)
    (mdMap : List (String × MarketData)) (now : ℚ) (L : LoopState) (s : Signal)
    (hv : validateSignalBasic s = true)
    (h : applyFilterRules rules L.st ⟨mdMap, L.ctxHist, now⟩ s = none) :
    (processOneSignal rules mdMap now L s).st.daily_signal_count
        = L.st.daily_signal_count + 1
    ∧ (processOneSignal rules mdMap now L s).accepted = L.accepted ++ [s] := by
  simp only [processOneSignal, hv, Bool.not_true, Bool.false_eq_true, if_false,
    h, updateSignalState]
  split <;> simp

theorem applyFilterRules_none_mem (rules : List FilterRule) (st : FilterState)
    (ctx : FilterCtx) (s : Signal)
    (h : applyFilterRules rules st ctx s = none) :
    ∀ r ∈ rules, r.filter_func st ctx s = .ok none := by
  induction rules with
  | nil => intro r hr; simp at hr
  | cons q qs ih =>
    intro r hr
    unfold applyFilterRules at h
    cases hq : q.filter_func st ctx s with
    | ok v =>
      cases v with
      | none =>
        rw [hq] at h
        rcases List.mem_cons.mp hr with rfl | hr'
        · exact hq
        · exact ih h r hr'
      | some reason => rw [hq] at h; simp at h
    | error e => rw [hq] at h; simp at h

theorem daily_rule_mem (logPos sqrtPos : ℚ → ℚ) (cfg : FilterConfig)
    (hen : cfg.daily_limit_enabled = true) :
    (⟨"daily_limit_filter", cfg.daily_limit_enabled, 8,
      filterByDailyLimit cfg, "daily limit"⟩ : FilterRule) ∈
      initializeFilterRules logPos sqrtPos cfg := by
  unfold initializeFilterRules
  rw [(List.perm_insertionSort _ _).mem_iff]
  rw [List.mem_filter]
  refine ⟨?_, by simp [hen]⟩
  simp

theorem pass_implies_daily_lt (logPos sqrtPos : ℚ → ℚ) (cfg : FilterConfig)
    (st : FilterState) (ctx : FilterCtx) (s : Signal)
    (hen : cfg.daily_limit_enabled = true)
    (h : applyFilterRules (initializeFilterRules logPos sqrtPos cfg) st ctx s
        = none) :
    st.daily_signal_count < cfg.max_daily_signals := by
  have hmem := daily_rule_mem logPos sqrtPos cfg hen
  have hrule := applyFilterRules_none_mem _ st ctx s h _ hmem
  simp only [filterByDailyLimit] at hrule
  by_cases hc : cfg.max_daily_signals ≤ st.daily_signal_count
  · rw [if_pos hc] at hrule; simp at hrule
  · omega

theorem loop_daily_count (logPos sqrtPos : ℚ → ℚ) (cfg : FilterConfig)
    (mdMap : List (String × MarketData)) (now : ℚ)
    (hen : cfg.daily_limit_enabled = true) :
    ∀ (sigs : List Signal) (L : LoopState),
      ((sigs.foldl (processOneSignal (initializeFilterRules logPos sqrtPos cfg)
          mdMap now) L).st.daily_signal_count + L.accepted.length
        = L.st.daily_signal_count +
          (sigs.foldl (processOneSignal (initializeFilterRules logPos sqrtPos cfg)
            mdMap now) L).accepted.length)
      ∧ (L.st.daily_signal_count ≤ cfg.max_daily_signals →
         (sigs.foldl (processOneSignal (initializeFilterRules logPos sqrtPos cfg)
            mdMap now) L).st.daily_signal_count ≤ cfg.max_daily_signals) := by
  intro sigs
  induction sigs with
  | nil => intro L; simp
  | cons s ss ih =>
    intro L
    simp only [List.foldl_cons]
    by_cases hv : validateSignalBasic s
    · cases ho : applyFilterRules (initializeFilterRules logPos sqrtPos cfg)
          L.st ⟨mdMap, L.ctxHist, now⟩ s with
      | none =>
        obtain ⟨hd, ha⟩ := processOneSignal_pass _ mdMap now L s hv ho
        obtain ⟨ih1, ih2⟩ := ih (processOneSignal
          (initializeFilterRules logPos sqrtPos cfg) mdMap now L s)
        constructor
        · rw [hd, ha] at ih1
          simp only [List.length_append, List.length_cons, List.length_nil] at ih1
          omega
        · intro hle
          apply ih2
          rw [hd]
          have := pass_implies_daily_lt logPos sqrtPos cfg L.st
            ⟨mdMap, L.ctxHist, now⟩ s hen ho
          omega
      | some o =>
        rw [processOneSignal_not_pass _ mdMap now L s (Or.inr (by rw [ho]; simp))]
        exact ih L
    · rw [processOneSignal_not_pass _ mdMap now L s
        (Or.inl (Bool.of_not_eq_true hv))]
      exact ih L

/-- C7: with the daily-limit rule enabled, (i) once the daily counter has
reached `max_daily_signals` the rule rejects with reason `daily_limit`;
(ii) a calendar-date rollover observed at the start of a call resets the
counter to `0`; (iii) starting a call with the counter within the limit, it
stays within the limit; (iv) on a non-empty batch the final counter equals
the post-reset counter plus the number of signals that passed the whole
rule chain. -/
theorem daily_limit_invariant (logPos sqrtPos : ℚ → ℚ) (cfg : FilterConfig)
    (now : ℚ) (today : ℤ) (st : FilterState) (signals : List Signal)
    (mdMap : List (String × MarketData))
    (hen : cfg.daily_limit_enabled = true)
    (hstart : st.daily_signal_count ≤ cfg.max_daily_signals) :
    (∀ (st' : FilterState) (ctx' : FilterCtx) (s' : Signal),
        cfg.max_daily_signals ≤ st'.daily_signal_count →
        filterByDailyLimit cfg st' ctx' s' = .ok (some "daily_limit"))
    ∧ (today ≠ st.last_reset_date →
        (resetDailyCountIfNeeded today st).daily_signal_count = 0
        ∧ (resetDailyCountIfNeeded today st).last_reset_date = today)
    ∧ (filterSignals logPos sqrtPos cfg now today st signals mdMap).2.daily_signal_count
        ≤ cfg.max_daily_signals
    ∧ (signals ≠ [] →
        (filterSignals logPos sqrtPos cfg now today st signals mdMap).2.daily_signal_count
          = (resetDailyCountIfNeeded today st).daily_signal_count +
            (signals.foldl
              (processOneSignal (initializeFilterRules logPos sqrtPos cfg) mdMap now)
              ⟨resetDailyCountIfNeeded today st,
                (resetDailyCountIfNeeded today st).signal_history, true, []⟩).accepted.length) := by
  have hreset : (resetDailyCountIfNeeded today st).daily_signal_count ≤
      cfg.max_daily_signals := by
    unfold resetDailyCountIfNeeded
    split <;> simp [hstart]
  refine ⟨?_, ?_, ?_, ?_⟩
  · intro st' ctx' s' hge
    simp [filterByDailyLimit, hge]
  · intro hne
    simp [resetDailyCountIfNeeded, hne]
  · by_cases hsig : signals = []
    · simp [filterSignals, hsig, hstart]
    · have hloop := (loop_daily_count logPos sqrtPos cfg mdMap now hen signals
        ⟨resetDailyCountIfNeeded today st,
          (resetDailyCountIfNeeded today st).signal_history, true, []⟩).2 hreset
      simpa [filterSignals, hsig] using hloop
  · intro hsig
    have hloop := (loop_daily_count logPos sqrtPos cfg mdMap now hen signals
      ⟨resetDailyCountIfNeeded today st,
        (resetDailyCountIfNeeded today st).signal_history, true, []⟩).1
    simp only [List.length_nil, Nat.add_zero] at hloop
    simpa [filterSignals, hsig] using hloop

/-- Witness for `daily_limit_invariant` at a concrete one-per-day
configuration with two candidates. -/
theorem daily_limit_invariant_witness :
    cfgDaily1.daily_limit_enabled = true
    ∧ (FilterState.daily_signal_count {} ≤ cfgDaily1.max_daily_signals)
    ∧ (filterSignals constZero constZero cfgDaily1 1600000000 0 {} [sigA, sigB]
        []).2.daily_signal_count ≤ cfgDaily1.max_daily_signals := by
  have h := daily_limit_invariant constZero constZero cfgDaily1 1600000000 0 {}
    [sigA, sigB] [] (by rfl) (by norm_num [cfgDaily1])
  exact ⟨by rfl, by norm_num [cfgDaily1], h.2.2.1⟩

theorem keys_addToGroups (s : Signal) (gs : List (String × List Signal)) :
    (addToGroups s gs).map Prod.fst =
      if s.symbol ∈ gs.map Prod.fst then gs.map Prod.fst
      else gs.map Prod.fst ++ [s.symbol] := by
  induction gs with
  | nil => simp [addToGroups]
  | cons g rest ih =>
    by_cases h : g.1 = s.symbol
    · simp [addToGroups, h]
    · by_cases hm : s.symbol ∈ rest.map Prod.fst
      · simp [addToGroups, h, ih, hm, Ne.symm h]
      · simp [addToGroups, h, ih, hm, Ne.symm h]

theorem pairwise_addToGroups (s : Signal) (gs : List (String × List Signal))
    (h : gs.Pairwise (fun a b => a.1 ≠ b.1)) :
    (addToGroups s gs).Pairwise (fun a b => a.1 ≠ b.1) := by
  induction gs with
  | nil => simp [addToGroups]
  | cons g rest ih =>
    rcases List.pairwise_cons.mp h with ⟨hg, hrest⟩
    by_cases hh : g.1 = s.symbol
    · rw [addToGroups, if_pos hh]
      exact List.pairwise_cons.mpr ⟨hg, hrest⟩
    · rw [addToGroups, if_neg hh]
      refine List.pairwise_cons.mpr ⟨?_, ih hrest⟩
      intro b hb
      have hkeys := keys_addToGroups s rest
      have hbk : b.1 ∈ (addToGroups s rest).map Prod.fst :=
        List.mem_map_of_mem Prod.fst hb
      rw [hkeys] at hbk
      by_cases hm : s.symbol ∈ rest.map Prod.fst
      · rw [if_pos hm] at hbk
        obtain ⟨c, hc, hceq⟩ := List.mem_map.mp hbk
        intro habs
        exact hg c hc (habs.symm ▸ hceq.symm)
      · rw [if_neg hm] at hbk
        rcases List.mem_append.mp hbk with hbk | hbk
        · obtain ⟨c, hc, hceq⟩ := List.mem_map.mp hbk
          intro habs
          exact hg c hc (habs.symm ▸ hceq.symm)
        · simp only [List.mem_singleton] at hbk
          intro habs
          exact hh (habs.trans hbk)

theorem values_addToGroups (s : Signal) (gs : List (String × List Signal))
    (pre : List Signal)
    (hpair : gs.Pairwise (fun a b => a.1 ≠ b.1))
    (hvals : ∀ g ∈ gs, g.2 = pre.filter (fun t => decide (t.symbol = g.1)))
    (hnew : s.symbol ∉ gs.map Prod.fst →
      pre.filter (fun t => decide (t.symbol = s.symbol)) = []) :
    ∀ g ∈ addToGroups s gs,
      g.2 = (pre ++ [s]).filter (fun t => decide (t.symbol = g.1)) := by
  induction gs with
  | nil =>
    intro g hg
    simp only [addToGroups, List.mem_singleton] at hg
    subst hg
    have hpre : pre.filter (fun t => decide (t.symbol = s.symbol)) = [] := by
      apply hnew; simp
    simp [List.filter_append, hpre]
  | cons q rest ih =>
    rcases List.pairwise_cons.mp hpair with ⟨hq, hrest⟩
    intro g hg
    by_cases hh : q.1 = s.symbol
    · rw [addToGroups, if_pos hh] at hg
      rcases List.mem_cons.mp hg with rfl | hg'
      · have hqv := hvals q (List.mem_cons_self _ _)
        simp only [List.filter_append]
        rw [← hqv, hh]
        simp [hh]
      · have := hvals g (List.mem_cons_of_mem _ hg')
        rw [this, List.filter_append]
        have hne : ¬ (s.symbol = g.1) := by
          intro habs
          exact hq g hg' (habs ▸ hh)
        simp [hne]
    · rw [addToGroups, if_neg hh] at hg
      rcases List.mem_cons.mp hg with rfl | hg'
      · have := hvals g (List.mem_cons_self _ _)
        rw [this, List.filter_append]
        have hne : ¬ (s.symbol = g.1) := fun habs => hh habs.symm
        simp [hne]
      · refine ih hrest (fun p hp => hvals p (List.mem_cons_of_mem _ hp)) ?_ g hg'
        intro hnm
        apply hnew
        simp only [List.map_cons, List.mem_cons]
        push_neg
        exact ⟨fun habs => hh habs.symm, hnm⟩

theorem groupsInv_step (pre : List Signal) (s : Signal)
    (gs : List (String × List Signal)) (h : GroupsInv pre gs) :
    GroupsInv (pre ++ [s]) (addToGroups s gs) := by
  obtain ⟨hpair, hvals, hcomp⟩ := h
  refine ⟨pairwise_addToGroups s gs hpair, ?_, ?_⟩
  · apply values_addToGroups s gs pre hpair hvals
    intro hnm
    rw [List.filter_eq_nil_iff]
    intro t ht
    simp only [decide_eq_true_eq]
    intro habs
    exact hnm (habs ▸ hcomp t ht)
  · intro t ht
    have hkeys := keys_addToGroups s gs
    rcases List.mem_append.mp ht with ht' | ht'
    · have := hcomp t ht'
      rw [hkeys]
      split
      · exact this
      · exact List.mem_append_left _ this
    · simp only [List.mem_singleton] at ht'
      subst ht'
      rw [hkeys]
      split
      · assumption
      · exact List.mem_append_right _ (by simp)

theorem groupsInv_foldl :
    ∀ (l pre : List Signal) (gs : List (String × List Signal)),
      GroupsInv pre gs →
      GroupsInv (pre ++ l) (l.foldl (fun a t => addToGroups t a) gs) := by
  intro l
  induction l with
  | nil => intro pre gs h; simpa using h
  | cons s rest ih =>
    intro pre gs h
    have hstep := groupsInv_step pre s gs h
    have := ih (pre ++ [s]) (addToGroups s gs) hstep
    simpa using this

theorem groupBySymbol_inv (l : List Signal) : GroupsInv l (groupBySymbol l) := by
  have h0 : GroupsInv [] [] := ⟨List.Pairwise.nil, by simp, by simp⟩
  have := groupsInv_foldl l [] [] h0
  simpa [groupBySymbol] using this

theorem flatten_take_filter (m : ℕ) (sorted : List Signal) :
    ∀ (gs : List (String × List Signal)),
      gs.Pairwise (fun a b => a.1 ≠ b.1) →
      (∀ g ∈ gs, g.2 = sorted.filter (fun t => decide (t.symbol = g.1))) →
      ∀ k, ((gs.map (fun g => g.2.take m)).flatten).filter
          (fun t => decide (t.symbol = k))
        = if k ∈ gs.map Prod.fst
          then (sorted.filter (fun t => decide (t.symbol = k))).take m
          else [] := by
  intro gs
  induction gs with
  | nil => intro _ _ k; simp
  | cons g rest ih =>
    intro hpair hvals k
    rcases List.pairwise_cons.mp hpair with ⟨hg, hrest⟩
    have hgv := hvals g (List.mem_cons_self _ _)
    simp only [List.map_cons, List.flatten_cons, List.filter_append]
    by_cases hk : k = g.1
    · have hfull : (g.2.take m).filter (fun t => decide (t.symbol = k)) =
          g.2.take m := by
        apply List.filter_eq_self.mpr
        intro t ht
        have ht' : t ∈ g.2 := List.mem_of_mem_take ht
        rw [hgv] at ht'
        have := List.of_mem_filter ht'
        simp only [decide_eq_true_eq] at this ⊢
        rw [this, hk]
      have hklast : k ∉ rest.map Prod.fst := by
        intro habs
        obtain ⟨c, hc, hceq⟩ := List.mem_map.mp habs
        exact hg c hc (hk.symm.trans hceq.symm)
      rw [hfull, ih hrest (fun p hp => hvals p (List.mem_cons_of_mem _ hp)) k,
        if_neg hklast]
      rw [if_pos (by simp [hk])]
      rw [hgv, hk]
      simp
    · have hempty : (g.2.take m).filter (fun t => decide (t.symbol = k)) = [] := by
        rw [List.filter_eq_nil_iff]
        intro t ht
        have ht' : t ∈ g.2 := List.mem_of_mem_take ht
        rw [hgv] at ht'
        have := List.of_mem_filter ht'
        simp only [decide_eq_true_eq] at this ⊢
        rw [this]
        exact fun habs => hk habs.symm
      rw [hempty, ih hrest (fun p hp => hvals p (List.mem_cons_of_mem _ hp)) k]
      simp only [List.nil_append, List.map_cons, List.mem_cons]
      by_cases hm : k ∈ rest.map Prod.fst
      · rw [if_pos hm, if_pos (Or.inr hm)]
      · rw [if_neg hm, if_neg (by push_neg; exact ⟨fun h => hk h, hm⟩)]

/-- C6: the post-processed output is sorted descending by confidence; for
every symbol it keeps (as a permutation) exactly the first
`max_signals_per_symbol` entries of that symbol's signals in the
stable-descending order — hence at most that many per symbol, and every kept
signal's confidence dominates every dropped same-symbol signal's. -/
theorem post_process_cap_and_order (cfg : FilterConfig) (accepted : List Signal) :
    (postProcessSignals cfg accepted).Sorted confGe
    ∧ (sortByConfidenceDesc accepted).Perm accepted
    ∧ ∀ k : String,
        ((postProcessSignals cfg accepted).filter
            (fun t => decide (t.symbol = k))).Perm
          (((sortByConfidenceDesc accepted).filter
              (fun t => decide (t.symbol = k))).take cfg.max_signals_per_symbol)
        ∧ ((postProcessSignals cfg accepted).filter
            (fun t => decide (t.symbol = k))).length ≤ cfg.max_signals_per_symbol
        ∧ (∀ x ∈ (((sortByConfidenceDesc accepted).filter
              (fun t => decide (t.symbol = k))).take cfg.max_signals_per_symbol),
           ∀ y ∈ (((sortByConfidenceDesc accepted).filter
              (fun t => decide (t.symbol = k))).drop cfg.max_signals_per_symbol),
           y.confidence ≤ x.confidence) := by
  have hsorted_acc : (sortByConfidenceDesc accepted).Sorted confGe :=
    List.sorted_insertionSort confGe accepted
  have hperm_acc : (sortByConfidenceDesc accepted).Perm accepted :=
    List.perm_insertionSort confGe accepted
  have hdom : ∀ k : String,
      ∀ x ∈ (((sortByConfidenceDesc accepted).filter
          (fun t => decide (t.symbol = k))).take cfg.max_signals_per_symbol),
      ∀ y ∈ (((sortByConfidenceDesc accepted).filter
          (fun t => decide (t.symbol = k))).drop cfg.max_signals_per_symbol),
      y.confidence ≤ x.confidence := by
    intro k x hx y hy
    have hp : ((sortByConfidenceDesc accepted).filter
        (fun t => decide (t.symbol = k))).Pairwise confGe :=
      hsorted_acc.filter _
    rw [← List.take_append_drop cfg.max_signals_per_symbol
      ((sortByConfidenceDesc accepted).filter (fun t => decide (t.symbol = k)))]
      at hp
    exact (List.pairwise_append.mp hp).2.2 x hx y hy
  by_cases hacc : accepted = []
  · subst hacc
    refine ⟨by simp [postProcessSignals], by simp [sortByConfidenceDesc], ?_⟩
    intro k
    refine ⟨?_, ?_, hdom k⟩
    · simp [postProcessSignals, sortByConfidenceDesc]
    · simp [postProcessSignals]
  · obtain ⟨hpair, hvals, hcomp⟩ := groupBySymbol_inv (sortByConfidenceDesc accepted)
    have hout : postProcessSignals cfg accepted = sortByConfidenceDesc
        (((groupBySymbol (sortByConfidenceDesc accepted)).map
          (fun g => g.2.take cfg.max_signals_per_symbol)).flatten) := by
      simp [postProcessSignals, hacc]
    have hfilterfinal : ∀ k,
        ((((groupBySymbol (sortByConfidenceDesc accepted)).map
          (fun g => g.2.take cfg.max_signals_per_symbol)).flatten).filter
            (fun t => decide (t.symbol = k)))
          = ((sortByConfidenceDesc accepted).filter
              (fun t => decide (t.symbol = k))).take cfg.max_signals_per_symbol := by
      intro k
      rw [flatten_take_filter cfg.max_signals_per_symbol
        (sortByConfidenceDesc accepted) _ hpair hvals k]
      by_cases hm : k ∈ (groupBySymbol (sortByConfidenceDesc accepted)).map Prod.fst
      · rw [if_pos hm]
      · rw [if_neg hm]
        have hnil : (sortByConfidenceDesc accepted).filter
            (fun t => decide (t.symbol = k)) = [] := by
          rw [List.filter_eq_nil_iff]
          intro t ht
          simp only [decide_eq_true_eq]
          intro habs
          exact hm (habs ▸ hcomp t ht)
        rw [hnil]
        simp
    refine ⟨?_, hperm_acc, ?_⟩
    · rw [hout]
      exact List.sorted_insertionSort confGe _
    · intro k
      refine ⟨?_, ?_, hdom k⟩
      · rw [hout]
        have hp := (List.perm_insertionSort confGe
          (((groupBySymbol (sortByConfidenceDesc accepted)).map
            (fun g => g.2.take cfg.max_signals_per_symbol)).flatten)).filter
          (fun t => decide (t.symbol = k))
        rw [hfilterfinal k] at hp
        exact hp
      · rw [hout]
        have hp := (List.perm_insertionSort confGe
          (((groupBySymbol (sortByConfidenceDesc accepted)).map
            (fun g => g.2.take cfg.max_signals_per_symbol)).flatten)).filter
          (fun t => decide (t.symbol = k))
        rw [hfilterfinal k] at hp
        exact le_trans (le_of_eq hp.length_eq)
          (by rw [List.length_take]; exact min_le_left _ _)
end SignalFilter

namespace TradingSignalGenerator

/-- C1 (amended): `generate_signals` returns an empty list for empty market
data, for a cooldown hit, or for insufficient data — but an exception during
indicator computation is caught and re-raised as `SignalGenerationError`,
propagating to the caller instead of yielding an empty result. -/
theorem generate_signals_exception_semantics (logPos sqrtPos : ℚ → ℚ)
    (uuid : ℕ → String) (cfg : GenConfig) (now : ℚ) (st : GenState)
    (md : MarketData) :
    (md.klines = [] →
      generateSignals logPos sqrtPos uuid cfg now st md = .ok ([], st))
    ∧ (md.klines ≠ [] →
       ¬ (now - dictGet st.last_signal_time md.symbol 0 < cfg.signal_cooldown) →
       (md.klines.map Kline.close).length <
         max cfg.sma_long_period (max cfg.rsi_period cfg.bb_period) →
       generateSignals logPos sqrtPos uuid cfg now st md = .ok ([], st))
    ∧ (∀ e : PyErr, md.klines ≠ [] →
       ¬ (now - dictGet st.last_signal_time md.symbol 0 < cfg.signal_cooldown) →
       ¬ ((md.klines.map Kline.close).length <
         max cfg.sma_long_period (max cfg.rsi_period cfg.bb_period)) →
       calcIndicators logPos sqrtPos cfg (md.klines.map Kline.close)
         (md.klines.map Kline.volume) = .error e →
       generateSignals logPos sqrtPos uuid cfg now st md =
         .error .signalGenerationError) := by
  refine ⟨?_, ?_, ?_⟩
  · intro h
    simp [generateSignals, h]
  · intro h1 h2 h3
    simp only [generateSignals]
    rw [if_neg h1, if_neg h2, if_pos h3]
  · intro e h1 h2 h3 hcalc
    simp only [generateSignals]
    rw [if_neg h1, if_neg h2, if_neg h3, hcalc]
end TradingSignalGenerator


/-- C1 counterexample: on concrete 21-bar market data whose last close is
`0`, `generate_signals` raises `SignalGenerationError` (wrapping the
`ValueError` from `log` inside `calculate_volatility`) instead of returning
an empty list. -/
theorem generate_signals_raises_on_indicator_error :
    TradingSignalGenerator.generateSignals constZero constZero uuid0 {}
      1000000 {} badMd = .error .signalGenerationError := by
  have h1 : ¬ badMd.klines = [] := by simp [badMd, mkKline]
  have h2 : ¬ ((1000000 : ℚ) - dictGet
      (TradingSignalGenerator.GenState.last_signal_time {}) badMd.symbol 0 <
      TradingSignalGenerator.GenConfig.signal_cooldown {}) := by
    norm_num [dictGet, badMd]
  have h3 : ¬ ((badMd.klines.map Kline.close).length <
      max (TradingSignalGenerator.GenConfig.sma_long_period {})
        (max (TradingSignalGenerator.GenConfig.rsi_period {})
          (TradingSignalGenerator.GenConfig.bb_period {}))) := by
    norm_num [badMd, mkKline, List.replicate]
  have hcalc : TradingSignalGenerator.calcIndicators constZero constZero {}
      (badMd.klines.map Kline.close) (badMd.klines.map Kline.volume)
      = .error .signalGenerationError := by
    norm_num [TradingSignalGenerator.calcIndicators, badMd, mkKline,
      MathUtils.calculate_sma, MathUtils.calculate_rsi, MathUtils.rsiLoop,
      MathUtils.deltasOf, MathUtils.gainsOf, MathUtils.lossesOf,
      MathUtils.calculate_bollinger_bands, MathUtils.stdev, MathUtils.mapExcept,
      MathUtils.calculate_macd, MathUtils.calculate_ema,
      MathUtils.calculate_volatility, pyDiv, pyLog, constZero,
      List.replicate, List.range_succ]
  simp only [TradingSignalGenerator.generateSignals]
  rw [if_neg h1, if_neg h2, if_neg h3, hcalc]

/-- Witness for `generate_signals_exception_semantics`: the empty-data and
insufficient-data branches return `ok ([], st)`, and the error branch fires
at a distinct concrete time on the same 21-bar data. -/
theorem generate_signals_exception_semantics_witness :
    TradingSignalGenerator.generateSignals constZero constZero uuid0 {}
      2000000 {} { klines := [], symbol := "BTCUSDT" } = .ok ([], {})
    ∧ TradingSignalGenerator.generateSignals constZero constZero uuid0 {}
      2000000 {} shortMd = .ok ([], {})
    ∧ TradingSignalGenerator.generateSignals constZero constZero uuid0 {}
      2000000 {} badMd = .error .signalGenerationError := by
  refine ⟨(TradingSignalGenerator.generate_signals_exception_semantics
      constZero constZero uuid0 {} 2000000 {} _).1 rfl, ?_, ?_⟩
  · exact (TradingSignalGenerator.generate_signals_exception_semantics
      constZero constZero uuid0 {} 2000000 {} shortMd).2.1
      (by simp [shortMd, mkKline])
      (by norm_num [dictGet, shortMd])
      (by norm_num [shortMd, mkKline, List.replicate])
  · exact (TradingSignalGenerator.generate_signals_exception_semantics
      constZero constZero uuid0 {} 2000000 {} badMd).2.2
      .signalGenerationError
      (by simp [badMd, mkKline])
      (by norm_num [dictGet, badMd])
      (by norm_num [badMd, mkKline, List.replicate])
      (by norm_num [TradingSignalGenerator.calcIndicators, badMd, mkKline,
        MathUtils.calculate_sma, MathUtils.calculate_rsi, MathUtils.rsiLoop,
        MathUtils.deltasOf, MathUtils.gainsOf, MathUtils.lossesOf,
        MathUtils.calculate_bollinger_bands, MathUtils.stdev,
        MathUtils.mapExcept, MathUtils.calculate_macd, MathUtils.calculate_ema,
        MathUtils.calculate_volatility, pyDiv, pyLog, constZero,
        List.replicate, List.range_succ])

namespace TradingSignalGenerator

theorem isDuplicateLoop_iff (now : ℚ) (s : Signal) (l : List Signal) :
    isDuplicateLoop now s l = true ↔
      ∃ h ∈ l, now - (h.timestamp : ℚ) / 1000 ≤ 300
        ∧ h.symbol = s.symbol ∧ h.side = s.side := by
  induction l with
  | nil => simp [isDuplicateLoop]
  | cons h rest ih =>
    unfold isDuplicateLoop
    by_cases h1 : 300 < now - (h.timestamp : ℚ) / 1000
    · rw [if_pos h1, ih]
      constructor
      · rintro ⟨g, hg, hgc⟩
        exact ⟨g, List.mem_cons_of_mem _ hg, hgc⟩
      · rintro ⟨g, hg, hgc⟩
        rcases List.mem_cons.mp hg with rfl | hg'
        · exact absurd hgc.1 (not_le.mpr h1)
        · exact ⟨g, hg', hgc⟩
    · rw [if_neg h1]
      by_cases h2 : h.symbol = s.symbol ∧ h.side = s.side
      · rw [if_pos h2]
        simp only [true_iff]
        exact ⟨h, List.mem_cons_self _ _, not_lt.mp h1, h2.1, h2.2⟩
      · rw [if_neg h2, ih]
        constructor
        · rintro ⟨g, hg, hgc⟩
          exact ⟨g, List.mem_cons_of_mem _ hg, hgc⟩
        · rintro ⟨g, hg, hgc⟩
          rcases List.mem_cons.mp hg with rfl | hg'
          · exact absurd ⟨hgc.2.1, hgc.2.2⟩ h2
          · exact ⟨g, hg', hgc⟩

/-- C8 (amended): the generator-level duplicate check drops a candidate
precisely when some entry among the last 10 history entries lies within the
300-second window and has the same symbol and side — the source compares
neither price nor confidence. -/
theorem is_duplicate_signal_iff (now : ℚ) (st : GenState) (s : Signal) :
    isDuplicateSignal now st s = true ↔
      ∃ h ∈ lastN 10 st.signal_history,
        now - (h.timestamp : ℚ) / 1000 ≤ 300
        ∧ h.symbol = s.symbol ∧ h.side = s.side := by
  unfold isDuplicateSignal
  exact isDuplicateLoop_iff now s (lastN 10 st.signal_history)
end TradingSignalGenerator


/-- C8 counterexample: the source drops `candC8` as a duplicate of `histC8`
although its price differs by 100% (far beyond 1%) and its confidence by 0.7
(far beyond 0.1), so the claimed price/confidence conditions are not part of
the check. -/
theorem duplicate_ignores_price_and_confidence :
    TradingSignalGenerator.isDuplicateSignal 1600000000 stC8 candC8 = true
    ∧ ¬ specDuplicateSuppression 1600000000 stC8 candC8
    ∧ 1/100 < |candC8.price - histC8.price| / histC8.price
    ∧ 1/10 < |candC8.confidence - histC8.confidence| := by
  refine ⟨?_, ?_, ?_, ?_⟩
  · norm_num [TradingSignalGenerator.isDuplicateSignal,
      TradingSignalGenerator.isDuplicateLoop, lastN, stC8, histC8, candC8]
  · intro habs
    obtain ⟨h, hmem, -, -, -, hprice, -⟩ := habs
    have hh : h = histC8 := by
      simpa [stC8, lastN] using hmem
    subst hh
    norm_num [histC8, candC8, abs_of_nonneg] at hprice
  · norm_num [histC8, candC8, abs_of_nonneg]
  · norm_num [histC8, candC8, abs_of_nonpos]

namespace SignalFilter

/-- C10: on a concrete batch of two chain-passing signals for one symbol
with `max_signals_per_symbol = 1`, the call returns only the
highest-confidence signal, yet both signals were appended to the history,
the symbol's last-accepted time was stamped, and the daily counter rose by
2 — strictly more than the number of signals returned. -/
theorem capped_signals_still_update_state :
    (filterSignals constZero constZero cfgCap1 1600000000 0 {} [sigA, sigB] []).1
      = [sigB]
    ∧ (filterSignals constZero constZero cfgCap1 1600000000 0 {} [sigA, sigB] []).2.daily_signal_count
      = 2
    ∧ (filterSignals constZero constZero cfgCap1 1600000000 0 {} [sigA, sigB] []).2.signal_history
      = [sigA, sigB]
    ∧ dictGet (filterSignals constZero constZero cfgCap1 1600000000 0 {}
        [sigA, sigB] []).2.symbol_last_signal "BTCUSDT" 0 = 1600000000
    ∧ (filterSignals constZero constZero cfgCap1 1600000000 0 {} [sigA, sigB] []).1.length
      < (filterSignals constZero constZero cfgCap1 1600000000 0 {} [sigA, sigB] []).2.daily_signal_count := by
  norm_num +decide [filterSignals, resetDailyCountIfNeeded,
    initializeFilterRules, processOneSignal, validateSignalBasic,
    ValidationUtils.validate_signal, ValidationUtils.validate_symbol,
    ValidationUtils.validate_price, ValidationUtils.validate_confidence,
    ValidationUtils.validate_timestamp, applyFilterRules, filterByConfidence,
    filterByCooldown, filterByVolume, filterByPrice, filterByVolatility,
    filterByBlacklist, filterDuplicates, filterDuplicatesLoop,
    areSignalsSimilar, filterByDailyLimit, updateSignalState, mdGet, dictGet,
    dictSet, pyDiv, lastN, List.insertionSort, List.orderedInsert,
    postProcessSignals, sortByConfidenceDesc, groupBySymbol, addToGroups,
    confGe, abs_of_nonneg, abs_of_nonpos, cfgCap1, sigA, sigB]

/-- Witness for `post_process_cap_and_order` at a concrete two-signal batch
capped to one per symbol: the kept signal's confidence dominates the
dropped one's, and the per-symbol count bound holds. -/
theorem post_process_cap_and_order_witness :
    sigA.confidence ≤ sigB.confidence
    ∧ ((postProcessSignals cfgCap1 [sigA, sigB]).filter
        (fun t => decide (t.symbol = "BTCUSDT"))).length
      ≤ cfgCap1.max_signals_per_symbol := by
  have h := post_process_cap_and_order cfgCap1 [sigA, sigB]
  refine ⟨?_, (h.2.2 "BTCUSDT").2.1⟩
  refine (h.2.2 "BTCUSDT").2.2 sigB ?_ sigA ?_
  · norm_num +decide [sortByConfidenceDesc, List.insertionSort,
      List.orderedInsert, confGe, sigA, sigB, cfgCap1]
  · norm_num +decide [sortByConfidenceDesc, List.insertionSort,
      List.orderedInsert, confGe, sigA, sigB, cfgCap1]

end SignalFilter
